import Mathlib

/-!
# Verification of the codebase-visualizer static-analysis core

Shallow embedding of the multi-language static-analysis pipeline:
the graph assembler (`GraphBuilder`), the entry-point detector
(`EntryPointDetector`), the import resolver (`ImportAnalyzer`) and the
per-language parsers (`JavaParser`, `PythonParser`, `ReactParser`).

Modelling conventions:
* TypeScript string-literal union types (`'class' | 'function' | ...`) are
  embedded as `String` fields, matching the runtime representation.
* JavaScript `Map`/`Set` based first-wins deduplication is embedded as a
  recursion carrying the list of already-seen keys, which reproduces both the
  membership semantics and the insertion order of the JS collections.
* Optional TS fields (`foo?: T`) become `Option` fields.  The
  presentation-only `documentation` blob and the wall-clock `analyzedAt`
  metadata field are not part of the embedding (no analysed operation reads
  them).
* External library calls (the Babel parser, `node:path` resolution, the
  filesystem) are parameters of the embedded functions.
-/

/-! ## String helpers (List.Char based so that kernel evaluation is cheap) -/

/-- JS `String.prototype.toLowerCase` (per character; the `/i` regex flags
compare case-insensitively, which on these ASCII patterns is the same). -/
def strToLower (s : String) : String :=
  String.mk (s.data.map Char.toLower)

/-- `suffix.data.isSuffixOf s.data`: JS `String.prototype.endsWith`. -/
def strEndsWith (s suffix : String) : Bool :=
  List.isSuffixOf suffix.data s.data

/-- JS `String.prototype.startsWith`. -/
def strStartsWith (s pre : String) : Bool :=
  List.isPrefixOf pre.data s.data

def strContainsAux (sub : List Char) : List Char → Bool
  | [] => sub.isEmpty
  | c :: cs => List.isPrefixOf sub (c :: cs) || strContainsAux sub cs

/-- JS `String.prototype.includes`. -/
def strContains (s sub : String) : Bool :=
  strContainsAux sub.data s.data

/-- Remove a literal suffix when present (used for the `replace(/...$/,'')`
calls on file names, whose regexes are plain suffix alternations). -/
def strDropSuffix (s suffix : String) : String :=
  if strEndsWith s suffix then ⟨s.data.take (s.data.length - suffix.data.length)⟩ else s

/-- Split on every character satisfying `p`, keeping empty pieces — the
semantics of JS `String.prototype.split` with a single-character (class)
separator. -/
def splitChars (p : Char → Bool) : List Char → List Char → List String
  | [], acc => [String.mk acc.reverse]
  | c :: cs, acc =>
    if p c then String.mk acc.reverse :: splitChars p cs []
    else splitChars p cs (c :: acc)

/-- JS `content.split('\n')`. -/
def strSplitLines (s : String) : List String :=
  splitChars (· == '\n') s.data []

/-- JS `Array.prototype.join(sep)`. -/
def strJoin (sep : String) : List String → String
  | [] => ""
  | [x] => x
  | x :: xs => x ++ sep ++ strJoin sep xs

/-- JS `String.prototype.trim`. -/
def strTrim (s : String) : String :=
  String.mk (((s.data.dropWhile Char.isWhitespace).reverse.dropWhile Char.isWhitespace).reverse)

/-- The characters before the first occurrence of `sep`, or all of them when
`sep` does not occur: JS `s.split(sep)[0]`. -/
def takeUntilSub (sep : List Char) : List Char → List Char
  | [] => []
  | c :: rest =>
    if List.isPrefixOf sep (c :: rest) then []
    else c :: takeUntilSub sep rest

/-- `lines.slice(a, b+1).join('\n')` over a 0-based inclusive line span. -/
def sliceJoin (lines : List String) (a b : Nat) : String :=
  strJoin "\n" ((lines.drop a).take (b + 1 - a))

/-! ## Data model (`types.ts`) -/

structure Parameter where
  name : String
  type : String
  optional : Option Bool := none
  defaultValue : Option String := none
deriving Repr, DecidableEq

/-- `CodeNode` from `types.ts`.  `type` ranges over
`class | function | method | component | module | interface | decorator`,
`language` over `java | typescript | javascript | python`. -/
structure CodeNode where
  id : String
  label : String
  type : String
  language : String
  filePath : String
  startLine : Nat
  endLine : Nat
  visibility : Option String := none
  isAsync : Option Bool := none
  isStatic : Option Bool := none
  isEntryPoint : Option Bool := none
  isPrimaryEntry : Option Bool := none
  parameters : Option (List Parameter) := none
  returnType : Option String := none
  props : Option (List String) := none
  hooks : Option (List String) := none
  sourceCode : String := ""
deriving Repr, DecidableEq

/-- `CodeEdge` from `types.ts`; `type` ranges over
`calls | extends | implements | imports | uses | contains`. -/
structure CodeEdge where
  from_ : String
  to_ : String
  type : String
  label : Option String := none
deriving Repr, DecidableEq

/-- `GraphMetadata` from `types.ts` (without the wall-clock `analyzedAt`). -/
structure GraphMetadata where
  totalFiles : Nat
  totalNodes : Nat
  languages : List String
  rootPath : String
  entryPoints : Option (List String) := none
deriving Repr, DecidableEq

structure CodeGraph where
  nodes : List CodeNode
  edges : List CodeEdge
  metadata : GraphMetadata
deriving Repr, DecidableEq

/-! ## GraphBuilder (`graphBuilder.ts`, `part_008`) -/

/-- One pass over the list carrying the set of already-seen keys: the
embedding of the `Map`/`Set` first-wins deduplication loops. -/
def dedupByAux {α : Type} (key : α → String) (seen : List String) : List α → List α
  | [] => []
  | x :: xs =>
    if seen.contains (key x) then dedupByAux key seen xs
    else x :: dedupByAux key (key x :: seen) xs

/-- `GraphBuilder.deduplicateNodes`: first-wins dedup by `node.id`. -/
def GraphBuilder.deduplicateNodes (nodes : List CodeNode) : List CodeNode :=
  dedupByAux (·.id) [] nodes

/-- The edge dedup key `` `${edge.from}-${edge.to_}-${edge.type}` ``. -/
def edgeKey (e : CodeEdge) : String :=
  e.from_ ++ "-" ++ e.to_ ++ "-" ++ e.type

/-- `GraphBuilder.deduplicateEdges`: first-wins dedup by `edgeKey`. -/
def GraphBuilder.deduplicateEdges (edges : List CodeEdge) : List CodeEdge :=
  dedupByAux edgeKey [] edges

/-- `[...new Set(l)]` for strings: distinct values in first-occurrence order. -/
def jsSetList (l : List String) : List String :=
  dedupByAux id [] l

/-- `GraphBuilder.buildFromEntryPoints`. -/
def GraphBuilder.buildFromEntryPoints (nodes : List CodeNode) (edges : List CodeEdge)
    (rootPath : String) (entryPointFiles : List String) : CodeGraph :=
  let uniqueNodes := GraphBuilder.deduplicateNodes nodes
  let uniqueEdges := GraphBuilder.deduplicateEdges edges
  { nodes := uniqueNodes
    edges := uniqueEdges
    metadata :=
      { totalFiles := (jsSetList (uniqueNodes.map (·.filePath))).length
        totalNodes := uniqueNodes.length
        languages := jsSetList (uniqueNodes.map (·.language))
        rootPath := rootPath
        entryPoints := some entryPointFiles } }

/-- The mutable state of `filterByDepth`'s recursive `traverse` closure.
`visited` and `nodesToInclude` are JS `Set`s; insertions only happen under a
`!visited.has(nodeId)` guard, so plain append keeps them duplicate-free. -/
structure TravState where
  visited : List String
  nodesToInclude : List String
  edgesToInclude : List CodeEdge
deriving Repr, DecidableEq

/-- The recursive `traverse(nodeId, depth)` closure of
`GraphBuilder.filterByDepth`.  `fuel` is an upper bound on the remaining
recursion depth; every call site maintains `fuel = maxDepth + 1 - depth`, so
`fuel = 0` implies `depth > maxDepth` and returning the state unchanged
coincides with the source's early return. -/
def GraphBuilder.traverse (edges : List CodeEdge) (maxDepth : Nat) :
    (fuel : Nat) → (nodeId : String) → (depth : Nat) → TravState → TravState
  | 0, _, _, st => st
  | fuel + 1, nodeId, depth, st =>
    if depth > maxDepth || st.visited.contains nodeId then st
    else
      let st1 : TravState :=
        { st with visited := st.visited ++ [nodeId]
                  nodesToInclude := st.nodesToInclude ++ [nodeId] }
      (edges.filter (fun e => e.from_ == nodeId)).foldl
        (fun acc e =>
          GraphBuilder.traverse edges maxDepth fuel e.to_ (depth + 1)
            { acc with edgesToInclude := acc.edgesToInclude ++ [e] })
        st1

/-- `GraphBuilder.filterByDepth`. -/
def GraphBuilder.filterByDepth (graph : CodeGraph) (rootNodeId : String)
    (maxDepth : Nat) : CodeGraph :=
  let st := GraphBuilder.traverse graph.edges maxDepth (maxDepth + 1) rootNodeId 0
    ⟨[], [], []⟩
  { nodes := graph.nodes.filter (fun n => st.nodesToInclude.contains n.id)
    edges := st.edgesToInclude
    metadata := { graph.metadata with totalNodes := st.nodesToInclude.length } }

/-- `GraphBuilder.getDependencies` (the `part_008` variant: edges are
addressed by file path, so all entities of each dependency file are
returned). -/
def GraphBuilder.getDependencies (graph : CodeGraph) (nodeId : String) : List CodeNode :=
  match graph.nodes.find? (fun n => n.id == nodeId) with
  | none => []
  | some node =>
    let targetFilePaths := (graph.edges.filter (fun e => e.from_ == node.filePath)).map (·.to_)
    graph.nodes.filter (fun n => targetFilePaths.contains n.filePath)

/-- `GraphBuilder.getDependents` (the `part_008` variant). -/
def GraphBuilder.getDependents (graph : CodeGraph) (nodeId : String) : List CodeNode :=
  match graph.nodes.find? (fun n => n.id == nodeId) with
  | none => []
  | some node =>
    let sourceFilePaths := (graph.edges.filter (fun e => e.to_ == node.filePath)).map (·.from_)
    graph.nodes.filter (fun n => sourceFilePaths.contains n.filePath)

/-! ## EntryPointDetector (`part_000`) -/

/-- `EntryPoint` record; `type` ranges over `main | index | app | config`. -/
structure EntryPoint where
  filePath : String
  type : String
  score : Nat
  isPrimaryEntry : Bool := false
deriving Repr, DecidableEq

/-- A path separator as in the regex character class `[\\/]`. -/
def isSep (c : Char) : Bool := c == '/' || c == '\\'

/-- The TS/JS extensions of the React primary-entry regexes. -/
def tsJsExts : List String := ["tsx", "ts", "jsx", "js"]

def sepStrings : List String := ["/", "\\"]

/-- Test of `/[\\/]dir[\\/]stem\.(tsx|ts|jsx|js)$/i` against a path: the
lower-cased path ends with separator,`dir`,separator,`stem`,`.`,extension. -/
def matchSepDirFile (dir stem : String) (path : String) : Bool :=
  tsJsExts.any fun ext =>
    sepStrings.any fun s1 =>
      sepStrings.any fun s2 =>
        strEndsWith (strToLower path) (s1 ++ dir ++ s2 ++ stem ++ "." ++ ext)

/-- Test of `/[\\/]stem\.(tsx|ts|jsx|js)$/i` against a path. -/
def matchSepFile (stem : String) (path : String) : Bool :=
  tsJsExts.any fun ext =>
    sepStrings.any fun s1 =>
      strEndsWith (strToLower path) (s1 ++ stem ++ "." ++ ext)

/-- `reactPrimaryPatterns`, in source order: `src/index.*`, `src/main.*`,
then `index.*` and `main.*` preceded by any separator. -/
def reactPrimaryPatterns : List (String → Bool) :=
  [matchSepDirFile "src" "index", matchSepDirFile "src" "main",
   matchSepFile "index", matchSepFile "main"]

/-- `pythonPrimaryPatterns`, in source order.  `/__main__\.py$/i` has no
separator requirement; the others require a literal `/` (the class `[\/]`
contains only the forward slash). -/
def pythonPrimaryPatterns : List (String → Bool) :=
  [fun p => strEndsWith (strToLower p) "__main__.py",
   fun p => strEndsWith (strToLower p) "/main.py",
   fun p => strEndsWith (strToLower p) "/app.py",
   fun p => strEndsWith (strToLower p) "/manage.py",
   fun p => strEndsWith (strToLower p) "/run.py",
   fun p => strEndsWith (strToLower p) "/wsgi.py",
   fun p => strEndsWith (strToLower p) "/asgi.py"]

/-- The Java branch's test: `ep.type === 'main' && ep.filePath.endsWith('.java')`. -/
def isJavaMainCandidate (ep : EntryPoint) : Bool :=
  ep.type == "main" && strEndsWith ep.filePath ".java"

/-- `Array.prototype.find`, returning the index of the found element as well
(the source mutates the found element in place; the functional embedding
rebuilds the list at that index). -/
def findWithIdx {α : Type} (p : α → Bool) : List α → Option (Nat × α)
  | [] => none
  | x :: xs =>
    if p x then some (0, x)
    else (findWithIdx p xs).map (fun r => (r.1 + 1, r.2))

/-- Try each pattern in order, `find`ing the first candidate matching it. -/
def findPatternMatch (ps : List (String → Bool)) (eps : List EntryPoint) :
    Option (Nat × EntryPoint) :=
  match ps with
  | [] => none
  | p :: ps' =>
    match findWithIdx (fun ep => p ep.filePath) eps with
    | some r => some r
    | none => findPatternMatch ps' eps

/-- In-place update `match.isPrimaryEntry = true` (plus `match.score += 100`
when `boost`) at index `i`. -/
def markAt (boost : Bool) : List EntryPoint → Nat → List EntryPoint
  | [], _ => []
  | ep :: eps, 0 =>
    { ep with isPrimaryEntry := true
              score := if boost then ep.score + 100 else ep.score } :: eps
  | ep :: eps, i + 1 => ep :: markAt boost eps i

/-- `EntryPointDetector.markPrimaryEntryPoint`: the ordered fallback chain
React patterns → Java `main` → Python patterns → highest-scoring head. -/
def EntryPointDetector.markPrimaryEntryPoint (eps : List EntryPoint) : List EntryPoint :=
  match findPatternMatch reactPrimaryPatterns eps with
  | some r => markAt true eps r.1
  | none =>
    match findWithIdx isJavaMainCandidate eps with
    | some r => markAt true eps r.1
    | none =>
      match findPatternMatch pythonPrimaryPatterns eps with
      | some r => markAt true eps r.1
      | none =>
        match eps with
        | [] => []
        | _ :: _ => markAt false eps 0

/-! ## ImportAnalyzer (`part_001`) -/

/-- The fixed candidate-extension list of `resolveImportPath`, in source
order: plain extensions first, then the `/index.*` variants. -/
def importExtensions : List String :=
  [".ts", ".tsx", ".js", ".jsx", ".java", "/index.ts", "/index.tsx", "/index.js", "/index.jsx"]

/-- `ImportAnalyzer.resolveImportPath`.  The filesystem is the predicate
`fileExists`; `resolveDir source spec` stands for the external
`path.resolve(path.dirname(sourceFile), importSource)`. -/
def ImportAnalyzer.resolveImportPath (fileExists : String → Bool)
    (resolveDir : String → String → String)
    (sourceFile importSource : String) : Option String :=
  if !strStartsWith importSource "." && !strStartsWith importSource "/" then
    none
  else
    let resolvedPath := resolveDir sourceFile importSource
    match (importExtensions.map (fun ext => resolvedPath ++ ext)).find? fileExists with
    | some testPath => some testPath
    | none => if fileExists resolvedPath then some resolvedPath else none

/-! ## ReactParser (`reactParser.ts`)

The Babel AST is modelled by the shapes the parser's visitors inspect:
function bodies (block with a statement list, or an implicit-return
expression), statements as seen by `hasJSXReturn` (a `ReturnStatement`'s
argument, or any node whose `body` field is an array), parameter patterns,
and the three visited declaration forms.  The Babel parse itself is an
external library; `ReactParser.parse` receives its outcome as an
`Except`-value, the `.error` case being a thrown parse exception. -/

/-- A statement as classified by `hasJSXReturn`: a `ReturnStatement` whose
optional argument is or is not a `JSXElement`, a node whose `body` is an
array of statements, or anything else. -/
inductive BStmt where
  | returnStmt (argIsJsx : Option Bool)
  | bodyArray (stmts : List BStmt)
  | otherStmt

/-- A function body: a `BlockStatement`, a `JSXElement` (implicit return),
or any other expression. -/
inductive FnBody where
  | blockStatement (stmts : List BStmt)
  | jsxElement
  | otherExpr

/-- A function parameter as inspected by `extractProps`/`extractParameters`:
an `ObjectPattern` with its property key names, an `Identifier` with an
optional type annotation text, or another pattern. -/
inductive ParamPat where
  | objectPattern (keys : List String)
  | identifier (name : String) (tyAnn : Option String)
  | otherPat
deriving Repr, DecidableEq

/-- The `superClass` of a class declaration as inspected by
`isReactClassComponent`. -/
inductive SuperClass where
  | ident (name : String)
  | member (propName : String)
  | otherSuper
deriving Repr, DecidableEq

/-- The `init` of a `VariableDeclarator`. -/
inductive VarInit where
  | arrowFunctionExpression (body : FnBody)
  | functionExpression (body : FnBody)
  | otherInit

/-- The AST nodes hit by the three visitors of `ReactParser.parse`, in
traversal order.  `loc` is `node.loc` (`none` when absent). -/
inductive BDecl where
  | functionDeclaration (name : Option String) (params : List ParamPat)
      (body : FnBody) (loc : Option (Nat × Nat))
  | variableDeclarator (name : String) (init : Option VarInit)
      (loc : Option (Nat × Nat))
  | classDeclaration (name : Option String) (superClass : Option SuperClass)
      (loc : Option (Nat × Nat))

mutual

/-- `ReactParser.hasJSXReturn`. -/
def ReactParser.hasJSXReturn : BStmt → Bool
  | .returnStmt argIsJsx => argIsJsx == some true
  | .bodyArray stmts => ReactParser.hasJSXReturnList stmts
  | .otherStmt => false

/-- `body.body.some(stmt => hasJSXReturn(stmt))` unrolled for structural
recursion; equal to `stmts.any hasJSXReturn`. -/
def ReactParser.hasJSXReturnList : List BStmt → Bool
  | [] => false
  | s :: ss => ReactParser.hasJSXReturn s || ReactParser.hasJSXReturnList ss

end

/-- `ReactParser.isReactComponent`: a block body containing a JSX `return`,
or an implicit-return body that is itself a JSX element. -/
def ReactParser.isReactComponent : FnBody → Bool
  | .blockStatement stmts => ReactParser.hasJSXReturnList stmts
  | .jsxElement => true
  | .otherExpr => false

/-- `ReactParser.isReactClassComponent`: the superclass is an identifier
named `Component` or a member expression whose property is `Component`. -/
def ReactParser.isReactClassComponent : Option SuperClass → Bool
  | some (.ident n) => n == "Component"
  | some (.member p) => p == "Component"
  | _ => false

/-- `ReactParser.extractProps`: key names of the first parameter when it is
an object-destructuring pattern. -/
def ReactParser.extractProps : List ParamPat → List String
  | .objectPattern keys :: _ => keys
  | _ => []

/-- `ReactParser.extractParameters`. -/
def ReactParser.extractParameters (params : List ParamPat) : List Parameter :=
  params.map fun p =>
    match p with
    | .identifier n ty => { name := n, type := ty.getD "any" }
    | _ => { name := "unknown", type := "any" }

/-- `tsx`/`ts` files are `typescript`, the rest `javascript`. -/
def ReactParser.langOf (fsPath : String) : String :=
  if strEndsWith fsPath ".tsx" || strEndsWith fsPath ".ts" then "typescript" else "javascript"

/-- `ReactParser.extractSource` (1-based inclusive lines; JS treats a missing
or zero line as falsy and returns the empty string). -/
def ReactParser.extractSource (content : String) (startLine endLine : Option Nat) : String :=
  match startLine, endLine with
  | some s, some e =>
    if s == 0 || e == 0 then ""
    else strJoin "\n" (((strSplitLines content).drop (s - 1)).take (e - (s - 1)))
  | _, _ => ""

/-- `` `${node.loc?.start.line}` ``: JS prints `undefined` for a missing loc. -/
def locStartString : Option (Nat × Nat) → String
  | some l => toString l.1
  | none => "undefined"

/-- `ReactParser.createComponentNode` (the `props` come from the AST node
passed at the call site: the function declaration's params, or nothing for a
variable declarator, which has no `params` field). -/
def ReactParser.createComponentNode (name : String) (params : List ParamPat)
    (loc : Option (Nat × Nat)) (fsPath content : String) : CodeNode :=
  { id := fsPath ++ ":component:" ++ name
    label := name
    type := "component"
    language := ReactParser.langOf fsPath
    filePath := fsPath
    startLine := (loc.map (·.1)).getD 0
    endLine := (loc.map (·.2)).getD 0
    sourceCode := ReactParser.extractSource content (loc.map (·.1)) (loc.map (·.2))
    props := some (ReactParser.extractProps params)
    hooks := some [] }

/-- `ReactParser.createFunctionNode`. -/
def ReactParser.createFunctionNode (name : String) (params : List ParamPat)
    (loc : Option (Nat × Nat)) (fsPath content : String) : CodeNode :=
  { id := fsPath ++ ":function:" ++ name ++ ":" ++ locStartString loc
    label := name
    type := "function"
    language := ReactParser.langOf fsPath
    filePath := fsPath
    startLine := (loc.map (·.1)).getD 0
    endLine := (loc.map (·.2)).getD 0
    sourceCode := ReactParser.extractSource content (loc.map (·.1)) (loc.map (·.2))
    parameters := some (ReactParser.extractParameters params) }

/-- `ReactParser.createClassComponentNode`. -/
def ReactParser.createClassComponentNode (name : String)
    (loc : Option (Nat × Nat)) (fsPath content : String) : CodeNode :=
  { id := fsPath ++ ":class:" ++ name
    label := name
    type := "class"
    language := ReactParser.langOf fsPath
    filePath := fsPath
    startLine := (loc.map (·.1)).getD 0
    endLine := (loc.map (·.2)).getD 0
    sourceCode := ReactParser.extractSource content (loc.map (·.1)) (loc.map (·.2)) }

/-- The nodes pushed for one visited AST node: the `FunctionDeclaration`,
`VariableDeclarator` and `ClassDeclaration` visitors of `ReactParser.parse`.
A variable-bound arrow/function value only pushes a node when it is a React
component — there is no `else` branch. -/
def ReactParser.visitNode (fsPath content : String) : BDecl → List CodeNode
  | .functionDeclaration name params body loc =>
    if ReactParser.isReactComponent body then
      [ReactParser.createComponentNode (name.getD "Anonymous") params loc fsPath content]
    else
      [ReactParser.createFunctionNode (name.getD "Anonymous") params loc fsPath content]
  | .variableDeclarator name init loc =>
    match init with
    | some (.arrowFunctionExpression body) =>
      if ReactParser.isReactComponent body then
        [ReactParser.createComponentNode name [] loc fsPath content]
      else []
    | some (.functionExpression body) =>
      if ReactParser.isReactComponent body then
        [ReactParser.createComponentNode name [] loc fsPath content]
      else []
    | _ => []
  | .classDeclaration name sc loc =>
    if ReactParser.isReactClassComponent sc then
      [ReactParser.createClassComponentNode (name.getD "Anonymous") loc fsPath content]
    else []

/-- `fileUri.fsPath.split(/[\\/]/).pop() || 'module'`. -/
def lastPathSegment (fsPath : String) : String :=
  match (splitChars isSep fsPath.data []).getLast? with
  | some s => if s == "" then "module" else s
  | none => "module"

/-- `ReactParser.createModuleNode`. -/
def ReactParser.createModuleNode (fsPath content name : String) : CodeNode :=
  { id := fsPath ++ ":module:" ++ name
    label := name
    type := "module"
    language := ReactParser.langOf fsPath
    filePath := fsPath
    startLine := 1
    endLine := (strSplitLines content).length
    sourceCode := content
    isEntryPoint := some true }

/-- `fileName.replace(/\.(tsx?|jsx?)$/, '')`. -/
def stripTsJsExt (fileName : String) : String :=
  if strEndsWith fileName ".tsx" then strDropSuffix fileName ".tsx"
  else if strEndsWith fileName ".jsx" then strDropSuffix fileName ".jsx"
  else if strEndsWith fileName ".ts" then strDropSuffix fileName ".ts"
  else if strEndsWith fileName ".js" then strDropSuffix fileName ".js"
  else fileName

/-- The shared `{ nodes, edges }` parser result shape. -/
structure ParseResult where
  nodes : List CodeNode
  edges : List CodeEdge
deriving Repr, DecidableEq

/-- The try-block of `ReactParser.parse` after a successful Babel parse:
visit every node, then synthesize a module node for bootstrap/entry files
with no declarations (`extractRelationships` is a no-op, so `edges` stays
empty). -/
def ReactParser.collect (ast : List BDecl) (fsPath content : String)
    (isEntryPoint : Bool) : ParseResult :=
  let nodes := ast.flatMap (ReactParser.visitNode fsPath content)
  let nodes :=
    if nodes.length == 0 then
      let fileName := lastPathSegment fsPath
      let baseName := stripTsJsExt fileName
      let isBootstrapFile := strContains content "createRoot"
        || strContains content "ReactDOM.render" || strContains content "render("
      if isBootstrapFile || isEntryPoint then
        nodes ++ [ReactParser.createModuleNode fsPath content baseName]
      else nodes
    else nodes
  { nodes := nodes, edges := [] }

/-- `ReactParser.parse`.  The Babel parse of the file content is an external
call that throws on malformed input; its outcome is the `Except`-valued
argument, and the `catch` branch returns empty lists. -/
def ReactParser.parse (babelOutcome : Except String (List BDecl))
    (fsPath content : String) (isEntryPoint : Bool) : ParseResult :=
  match babelOutcome with
  | .error _ => { nodes := [], edges := [] }
  | .ok ast => ReactParser.collect ast fsPath content isEntryPoint

/-! ## PythonParser (`pythonParser.ts`)

The regex/indentation line-scanning stage (`parseClasses`,
`parseStandaloneFunctions`) produces the intermediate `PythonClass`,
`PythonMethod` and `PythonFunction` records below; the embedded `parse`
receives that stage's outcome as an `Except`-value whose `.error` case is an
exception thrown inside the `try` block, and performs the node/edge assembly
of the source's `parse` body. -/

structure PythonMethod where
  name : String
  startLine : Nat
  endLine : Nat
  indent : Nat
  decorators : List String
  parameters : List Parameter
  returnType : String
  isAsync : Bool
  isStatic : Bool
  isClassMethod : Bool
  isProperty : Bool
deriving Repr, DecidableEq

structure PythonClass where
  name : String
  startLine : Nat
  endLine : Nat
  indent : Nat
  decorators : List String
  bases : List String
  methods : List PythonMethod
deriving Repr, DecidableEq

structure PythonFunction where
  name : String
  startLine : Nat
  endLine : Nat
  indent : Nat
  decorators : List String
  parameters : List Parameter
  returnType : String
  isAsync : Bool
deriving Repr, DecidableEq

/-- Name-mangling visibility rule shared by the Python node builders. -/
def pythonVisibility (name : String) : String :=
  if strStartsWith name "__" && !strEndsWith name "__" then "private"
  else if strStartsWith name "_" then "protected"
  else "public"

/-- `PythonParser.createClassNode`. -/
def PythonParser.createClassNode (cls : PythonClass) (fsPath : String)
    (lines : List String) : CodeNode :=
  { id := fsPath ++ ":class:" ++ cls.name
    label := cls.name
    type := "class"
    language := "python"
    filePath := fsPath
    startLine := cls.startLine + 1
    endLine := cls.endLine + 1
    visibility := some (if strStartsWith cls.name "_" then "private" else "public")
    sourceCode := sliceJoin lines cls.startLine cls.endLine }

/-- `PythonParser.createMethodNode`. -/
def PythonParser.createMethodNode (m : PythonMethod) (className fsPath : String)
    (lines : List String) : CodeNode :=
  { id := fsPath ++ ":method:" ++ className ++ "." ++ m.name ++ ":" ++ toString m.startLine
    label := m.name
    type := "method"
    language := "python"
    filePath := fsPath
    startLine := m.startLine + 1
    endLine := m.endLine + 1
    visibility := some (pythonVisibility m.name)
    isAsync := some m.isAsync
    isStatic := some m.isStatic
    parameters := some m.parameters
    returnType := if m.returnType == "" then none else some m.returnType
    sourceCode := sliceJoin lines m.startLine m.endLine }

/-- `PythonParser.createFunctionNode`. -/
def PythonParser.createFunctionNode (f : PythonFunction) (fsPath : String)
    (lines : List String) : CodeNode :=
  { id := fsPath ++ ":function:" ++ f.name ++ ":" ++ toString f.startLine
    label := f.name
    type := "function"
    language := "python"
    filePath := fsPath
    startLine := f.startLine + 1
    endLine := f.endLine + 1
    visibility := some (pythonVisibility f.name)
    isAsync := some f.isAsync
    parameters := some f.parameters
    returnType := if f.returnType == "" then none else some f.returnType
    sourceCode := sliceJoin lines f.startLine f.endLine }

/-- `PythonParser.createModuleNode`. -/
def PythonParser.createModuleNode (fsPath content name : String) : CodeNode :=
  { id := fsPath ++ ":module:" ++ name
    label := name
    type := "module"
    language := "python"
    filePath := fsPath
    startLine := 1
    endLine := (strSplitLines content).length
    sourceCode := content
    isEntryPoint := some true }

/-- The character class `[\w.]` (ASCII word character or dot). -/
def isWordDotChar (c : Char) : Bool := c.isAlphanum || c == '_' || c == '.'

/-- Require at least one whitespace character (`\s+`) and consume the run. -/
def wsPlus (cs : List Char) : Option (List Char) :=
  match cs with
  | c :: _ => if c.isWhitespace then some (cs.dropWhile Char.isWhitespace) else none
  | [] => none

/-- Match `/^import\s+([\w.]+)/` against a (trimmed) line. -/
def matchImportPy (s : String) : Option String :=
  if List.isPrefixOf "import".data s.data then
    match wsPlus (s.data.drop 6) with
    | none => none
    | some cs =>
      let run := cs.takeWhile isWordDotChar
      if run.isEmpty then none else some (String.mk run)
  else none

/-- Match `/^from\s+([\w.]+)\s+import\s+(.+)/` against a (trimmed) line,
returning the module and the raw imported-items text.  (The degenerate case
of an item text consisting only of whitespace, reachable in the source via
regex backtracking, is not matched; `extractImports` is only ever applied to
trimmed lines, for which the two agree.) -/
def matchFromImportPy (s : String) : Option (String × String) :=
  if List.isPrefixOf "from".data s.data then
    match wsPlus (s.data.drop 4) with
    | none => none
    | some cs1 =>
      let modRun := cs1.takeWhile isWordDotChar
      if modRun.isEmpty then none
      else
        match wsPlus (cs1.dropWhile isWordDotChar) with
        | none => none
        | some cs2 =>
          if List.isPrefixOf "import".data cs2 then
            match wsPlus (cs2.drop 6) with
            | none => none
            | some cs3 =>
              if cs3.isEmpty then none
              else some (String.mk modRun, String.mk cs3)
          else none
  else none

/-- `PythonParser.extractImports`. -/
def PythonParser.extractImports (content fsPath : String) : List CodeEdge :=
  (strSplitLines content).flatMap fun line =>
    let trimmedLine := strTrim line
    match matchImportPy trimmedLine with
    | some m =>
      [{ from_ := fsPath, to_ := m, type := "imports", label := some ("import " ++ m) }]
    | none =>
      match matchFromImportPy trimmedLine with
      | some r =>
        let items := (splitChars (· == ',') r.2.data []).map
          (fun i => strTrim (String.mk (takeUntilSub " as ".data (strTrim i).data)))
        [{ from_ := fsPath, to_ := r.1, type := "imports",
           label := some (strJoin ", " items) }]
      | none => []

/-- The `contains` edge pushed for one method of one class: both endpoints
are `fileUri.fsPath`. -/
def PythonParser.containsEdge (fsPath clsName mName : String) : CodeEdge :=
  { from_ := fsPath, to_ := fsPath, type := "contains",
    label := some (clsName ++ " contains " ++ mName) }

/-- The per-class loop of `PythonParser.parse`.  The loop pushes into the
independent `nodes` and `edges` arrays, so each is the concatenation of the
per-class contributions: the class node followed by its method nodes, and
one `contains` edge per method followed by one `extends` edge per base. -/
def PythonParser.assembleClasses (fsPath : String) (lines : List String)
    (classes : List PythonClass) : List CodeNode × List CodeEdge :=
  (classes.flatMap (fun cls =>
      PythonParser.createClassNode cls fsPath lines ::
        cls.methods.map (fun m => PythonParser.createMethodNode m cls.name fsPath lines)),
   classes.flatMap (fun cls =>
      cls.methods.map (fun m => PythonParser.containsEdge fsPath cls.name m.name) ++
        cls.bases.map (fun base =>
          { from_ := fsPath, to_ := base, type := "extends",
            label := some ("extends " ++ base) })))

/-- `PythonParser.parse`. -/
def PythonParser.parse
    (scanOutcome : Except String (List PythonClass × List PythonFunction))
    (fsPath content : String) (isEntryPoint : Bool) : ParseResult :=
  match scanOutcome with
  | .error _ => { nodes := [], edges := [] }
  | .ok scanned =>
    let lines := strSplitLines content
    let r := PythonParser.assembleClasses fsPath lines scanned.1
    let ns := r.1 ++ scanned.2.map (fun f => PythonParser.createFunctionNode f fsPath lines)
    let ns :=
      if ns.length == 0 && isEntryPoint then
        let baseName := strDropSuffix (lastPathSegment fsPath) ".py"
        ns ++ [PythonParser.createModuleNode fsPath content baseName]
      else ns
    { nodes := ns, edges := r.2 ++ PythonParser.extractImports content fsPath }

/-! ## JavaParser (`javaParser.ts`, the improved line-based parser)

Same boundary as for Python: the line-scanning stage (`parseClasses`,
`parseMethods`, `parseInterfaces`) yields the intermediate records below
(each class paired with the methods scanned inside its span), and the
embedded `parse` is the node/edge assembly of the source's `try` block. -/

structure JavaClass where
  name : String
  startLine : Nat
  endLine : Nat
  visibility : String
  isAbstract : Bool
  isFinal : Bool
  isStatic : Bool
  extendsClass : Option String
  implementsInterfaces : List String
  annotations : List String
deriving Repr, DecidableEq

structure JavaMethod where
  name : String
  startLine : Nat
  endLine : Nat
  visibility : String
  isAbstract : Bool
  isFinal : Bool
  isStatic : Bool
  isSynchronized : Bool
  returnType : String
  parameters : List Parameter
  annotations : List String
  className : String
deriving Repr, DecidableEq

structure JavaInterface where
  name : String
  startLine : Nat
  endLine : Nat
  visibility : String
  extendsInterfaces : List String
  annotations : List String
deriving Repr, DecidableEq

/-- `JavaParser.createClassNode`. -/
def JavaParser.createClassNode (cls : JavaClass) (fsPath : String)
    (lines : List String) : CodeNode :=
  { id := fsPath ++ ":class:" ++ cls.name
    label := cls.name
    type := "class"
    language := "java"
    filePath := fsPath
    startLine := cls.startLine + 1
    endLine := cls.endLine + 1
    visibility := some cls.visibility
    isStatic := some cls.isStatic
    sourceCode := sliceJoin lines cls.startLine cls.endLine }

/-- `JavaParser.createMethodNode` (note `isAsync` is set from
`isSynchronized`, and the id uses the 0-based start line). -/
def JavaParser.createMethodNode (m : JavaMethod) (fsPath : String)
    (lines : List String) : CodeNode :=
  { id := fsPath ++ ":method:" ++ m.className ++ "." ++ m.name ++ ":" ++ toString m.startLine
    label := m.name
    type := "method"
    language := "java"
    filePath := fsPath
    startLine := m.startLine + 1
    endLine := m.endLine + 1
    visibility := some m.visibility
    isStatic := some m.isStatic
    isAsync := some m.isSynchronized
    parameters := some m.parameters
    returnType := some m.returnType
    sourceCode := sliceJoin lines m.startLine m.endLine }

/-- `JavaParser.createInterfaceNode`. -/
def JavaParser.createInterfaceNode (iface : JavaInterface) (fsPath : String)
    (lines : List String) : CodeNode :=
  { id := fsPath ++ ":interface:" ++ iface.name
    label := iface.name
    type := "interface"
    language := "java"
    filePath := fsPath
    startLine := iface.startLine + 1
    endLine := iface.endLine + 1
    visibility := some iface.visibility
    sourceCode := sliceJoin lines iface.startLine iface.endLine }

/-- `JavaParser.createModuleNode`. -/
def JavaParser.createModuleNode (fsPath content name : String) : CodeNode :=
  { id := fsPath ++ ":module:" ++ name
    label := name
    type := "module"
    language := "java"
    filePath := fsPath
    startLine := 1
    endLine := (strSplitLines content).length
    sourceCode := content
    isEntryPoint := some true }

/-- Match `/^import\s+(static\s+)?([^;]+);/` against a (trimmed) line,
returning the static flag and the raw import path. -/
def matchImportJava (s : String) : Option (Bool × String) :=
  if List.isPrefixOf "import".data s.data then
    match wsPlus (s.data.drop 6) with
    | none => none
    | some cs1 =>
      let r :=
        if List.isPrefixOf "static".data cs1 then
          match wsPlus (cs1.drop 6) with
          | some rest => (true, rest)
          | none => (false, cs1)
        else (false, cs1)
      let run := r.2.takeWhile (fun c => c != ';')
      if run.isEmpty then none
      else
        match r.2.dropWhile (fun c => c != ';') with
        | ';' :: _ => some (r.1, String.mk run)
        | _ => none
  else none

/-- `JavaParser.extractImports`. -/
def JavaParser.extractImports (content fsPath : String) : List CodeEdge :=
  (strSplitLines content).flatMap fun line =>
    match matchImportJava (strTrim line) with
    | some r =>
      [{ from_ := fsPath, to_ := strTrim r.2, type := "imports",
         label := some (if r.1 then "static import" else "import") }]
    | none => []

/-- The `contains` edge pushed for one method of one class: both endpoints
are `fileUri.fsPath`. -/
def JavaParser.containsEdge (fsPath clsName mName : String) : CodeEdge :=
  { from_ := fsPath, to_ := fsPath, type := "contains",
    label := some (clsName ++ " contains " ++ mName) }

/-- The per-class loop of `JavaParser.parse`: per class (paired with the
methods scanned inside it), the class node followed by its method nodes; and
one `contains` edge per method (both endpoints `fileUri.fsPath`), one
`extends` edge when a superclass was captured, then one `implements` edge
per interface.  The loop pushes into the independent `nodes` and `edges`
arrays, so each is the concatenation of the per-class contributions. -/
def JavaParser.assembleClasses (fsPath : String) (lines : List String)
    (classes : List (JavaClass × List JavaMethod)) : List CodeNode × List CodeEdge :=
  (classes.flatMap (fun cm =>
      JavaParser.createClassNode cm.1 fsPath lines ::
        cm.2.map (fun m => JavaParser.createMethodNode m fsPath lines)),
   classes.flatMap (fun cm =>
      cm.2.map (fun m => JavaParser.containsEdge fsPath cm.1.name m.name) ++
        (match cm.1.extendsClass with
         | some ext => [{ from_ := fsPath, to_ := ext, type := "extends",
                          label := some ("extends " ++ ext) : CodeEdge }]
         | none => []) ++
        cm.1.implementsInterfaces.map (fun iface =>
          { from_ := fsPath, to_ := iface, type := "implements",
            label := some ("implements " ++ iface) })))

/-- The interface loop of `JavaParser.parse`. -/
def JavaParser.assembleInterfaces (fsPath : String) (lines : List String)
    (interfaces : List JavaInterface) : List CodeNode × List CodeEdge :=
  (interfaces.map (fun iface => JavaParser.createInterfaceNode iface fsPath lines),
   interfaces.flatMap (fun iface =>
     iface.extendsInterfaces.map (fun ext =>
       { from_ := fsPath, to_ := ext, type := "extends",
         label := some ("extends " ++ ext) })))

/-- `JavaParser.parse`. -/
def JavaParser.parse
    (scanOutcome : Except String (List (JavaClass × List JavaMethod) × List JavaInterface))
    (fsPath content : String) (isEntryPoint : Bool) : ParseResult :=
  match scanOutcome with
  | .error _ => { nodes := [], edges := [] }
  | .ok scanned =>
    let lines := strSplitLines content
    let rc := JavaParser.assembleClasses fsPath lines scanned.1
    let ri := JavaParser.assembleInterfaces fsPath lines scanned.2
    let ns := rc.1 ++ ri.1
    let es := rc.2 ++ ri.2
    let ns :=
      if ns.length == 0 && isEntryPoint then
        let baseName := strDropSuffix (lastPathSegment fsPath) ".java"
        ns ++ [JavaParser.createModuleNode fsPath content baseName]
      else ns
    { nodes := ns, edges := es ++ JavaParser.extractImports content fsPath }

/-! ## Supporting lemmas -/

/-- Membership in the file-path lookup list of `getDependencies`: the
`includes` test over the mapped filter is an existential over the edges. -/
theorem contains_map_filter_from (edges : List CodeEdge) (fp x : String) :
    ((edges.filter (fun e => e.from_ == fp)).map (·.to_)).contains x
      = edges.any (fun e => e.from_ == fp && e.to_ == x) := by
  rw [Bool.eq_iff_iff]
  simp [List.mem_filter, List.any_eq_true]
  tauto

theorem contains_map_filter_to (edges : List CodeEdge) (fp x : String) :
    ((edges.filter (fun e => e.to_ == fp)).map (·.from_)).contains x
      = edges.any (fun e => e.to_ == fp && e.from_ == x) := by
  rw [Bool.eq_iff_iff]
  simp [List.mem_filter, List.any_eq_true]
  tauto

/-! ## C8 -/

/-- C8: `getDependencies(graph, nodeId)` returns exactly the nodes whose
file path is the target of some edge whose source is the looked-up node's
file path (file granularity: every entity of each dependency file), and the
empty list — not an error — when no node has the id; `getDependents` is the
mirror over edge targets. -/
theorem getDependencies_spec (graph : CodeGraph) (nodeId : String) :
    (graph.nodes.find? (fun n => n.id == nodeId) = none →
      GraphBuilder.getDependencies graph nodeId = [] ∧
      GraphBuilder.getDependents graph nodeId = []) ∧
    (∀ node, graph.nodes.find? (fun n => n.id == nodeId) = some node →
      GraphBuilder.getDependencies graph nodeId =
        graph.nodes.filter (fun n =>
          graph.edges.any (fun e => e.from_ == node.filePath && e.to_ == n.filePath)) ∧
      GraphBuilder.getDependents graph nodeId =
        graph.nodes.filter (fun n =>
          graph.edges.any (fun e => e.to_ == node.filePath && e.from_ == n.filePath))) := by
  constructor
  · intro h
    constructor <;> simp [GraphBuilder.getDependencies, GraphBuilder.getDependents, h]
  · intro node h
    constructor
    · simp only [GraphBuilder.getDependencies, h]
      exact List.filter_congr fun n _ => contains_map_filter_from graph.edges node.filePath n.filePath
    · simp only [GraphBuilder.getDependents, h]
      exact List.filter_congr fun n _ => contains_map_filter_to graph.edges node.filePath n.filePath

def depNodeA : CodeNode :=
  { id := "a1", label := "A", type := "class", language := "java",
    filePath := "/w/A.java", startLine := 1, endLine := 3 }

def depNodeB : CodeNode :=
  { id := "b1", label := "B", type := "class", language := "java",
    filePath := "/w/B.java", startLine := 1, endLine := 3 }

def depGraph : CodeGraph :=
  { nodes := [depNodeA, depNodeB]
    edges := [{ from_ := "/w/A.java", to_ := "/w/B.java", type := "imports" }]
    metadata := { totalFiles := 2, totalNodes := 2, languages := ["java"], rootPath := "/w" } }

/-- Witness for `getDependencies_spec`: on a concrete two-node graph the
found-node branch applies and evaluates as stated. -/
theorem getDependencies_spec_witness :
    GraphBuilder.getDependencies depGraph "a1" =
      depGraph.nodes.filter (fun n =>
        depGraph.edges.any (fun e => e.from_ == depNodeA.filePath && e.to_ == n.filePath)) ∧
    GraphBuilder.getDependents depGraph "b1" =
      depGraph.nodes.filter (fun n =>
        depGraph.edges.any (fun e => e.to_ == depNodeB.filePath && e.from_ == n.filePath)) :=
  ⟨((getDependencies_spec depGraph "a1").2 depNodeA (by decide)).1,
   ((getDependencies_spec depGraph "b1").2 depNodeB (by decide)).2⟩

/-! ## C2 -/

theorem traverse_fuel_zero (edges : List CodeEdge) (maxDepth : Nat)
    (nodeId : String) (depth : Nat) (st : TravState) :
    GraphBuilder.traverse edges maxDepth 0 nodeId depth st = st := rfl

/-- With no fuel left, the per-edge fold of `traverse` only pushes the
outgoing edges, in order. -/
theorem foldl_traverse_zero (edges : List CodeEdge) (maxDepth : Nat)
    (l : List CodeEdge) (st : TravState) :
    l.foldl
      (fun acc e => GraphBuilder.traverse edges maxDepth 0 e.to_ 1
        { acc with edgesToInclude := acc.edgesToInclude ++ [e] }) st
    = { st with edgesToInclude := st.edgesToInclude ++ l } := by
  induction l generalizing st with
  | nil => simp
  | cons e es ih =>
    rw [List.foldl_cons, traverse_fuel_zero, ih]
    simp

/-- C2 (amended): at depth bound 0 the node list is exactly the nodes whose
id is the root id (so exactly the root node whenever node ids are unique and
the root is present), but the edge list is every edge leaving the root — the
source pushes each outgoing edge before the depth check — and `totalNodes`
is 1. -/
theorem filterByDepth_zero (graph : CodeGraph) (rootNodeId : String) :
    GraphBuilder.filterByDepth graph rootNodeId 0 =
      { nodes := graph.nodes.filter (fun n => n.id == rootNodeId)
        edges := graph.edges.filter (fun e => e.from_ == rootNodeId)
        metadata := { graph.metadata with totalNodes := 1 } } := by
  show
    (let st := GraphBuilder.traverse graph.edges 0 1 rootNodeId 0 ⟨[], [], []⟩
     ({ nodes := graph.nodes.filter (fun n => st.nodesToInclude.contains n.id)
        edges := st.edgesToInclude
        metadata := { graph.metadata with totalNodes := st.nodesToInclude.length } } :
       CodeGraph)) = _
  rw [show GraphBuilder.traverse graph.edges 0 1 rootNodeId 0 ⟨[], [], []⟩
      = { visited := [rootNodeId], nodesToInclude := [rootNodeId]
          edgesToInclude := graph.edges.filter (fun e => e.from_ == rootNodeId) } from ?_]
  · have hfun : ∀ n ∈ graph.nodes, ([rootNodeId].contains n.id) = (n.id == rootNodeId) := by
      intro n _
      by_cases h : n.id = rootNodeId <;> simp [List.contains_cons, h]
    dsimp only
    rw [List.filter_congr hfun]
    rfl
  · rw [GraphBuilder.traverse]
    simp [foldl_traverse_zero]

def exNode (i : String) : CodeNode :=
  { id := i, label := i, type := "class", language := "java",
    filePath := "/w/" ++ i, startLine := 1, endLine := 2 }

def exEdge (a b : String) : CodeEdge :=
  { from_ := a, to_ := b, type := "imports" }

def exMeta : GraphMetadata :=
  { totalFiles := 5, totalNodes := 5, languages := ["java"], rootPath := "/w" }

/-- A two-node graph with a single edge leaving the root. -/
def rootEdgeGraph : CodeGraph :=
  { nodes := [exNode "r", exNode "b"]
    edges := [exEdge "r" "b"]
    metadata := exMeta }

/-- C2 counterexample: on a graph whose root has one outgoing edge,
`filterByDepth(graph, root, 0)` returns the root node only, but its edge
list is `[r → b]`, not empty as the claim states. -/
theorem filterByDepth_zero_counterexample :
    (GraphBuilder.filterByDepth rootEdgeGraph "r" 0).nodes = [exNode "r"] ∧
    (GraphBuilder.filterByDepth rootEdgeGraph "r" 0).edges = [exEdge "r" "b"] ∧
    (GraphBuilder.filterByDepth rootEdgeGraph "r" 0).edges ≠ [] := by
  refine ⟨by decide, by decide, by decide⟩

/-! ## C3 -/

/-- The graph on which depth-limited traversal is not monotone: from `r`,
the first path reaches `v` via `a`, `b` (depth 3) and a direct edge reaches
`v` at depth 1; `v` leads to `c`, and `c` has an outgoing edge.  With
`maxDepth = 3` the traversal first visits `v` at depth 3 (cutting off `c`)
and the cycle guard then blocks the depth-1 revisit; with `maxDepth = 2` the
depth-3 visit is cut off, so `v` is expanded at depth 1 and `c` is
reached. -/
def nonMonotoneGraph : CodeGraph :=
  { nodes := ["r", "a", "b", "v", "c"].map exNode
    edges := [exEdge "r" "a", exEdge "r" "v", exEdge "a" "b", exEdge "b" "v",
              exEdge "v" "c", exEdge "c" "d"]
    metadata := exMeta }

/-- C3: the node and edge counts returned by `filterByDepth` are not
monotone in `maxDepth`: on `nonMonotoneGraph` the bound 2 yields 5 nodes and
6 edges while the larger bound 3 yields only 4 nodes and 5 edges.  The
traversal's shared `visited` set interacts with the depth bound (a node
first reached deep in the walk is never re-expanded on a later shallower
path), which contradicts the specified monotonicity. -/
theorem filterByDepth_nonmonotone :
    (GraphBuilder.filterByDepth nonMonotoneGraph "r" 2).nodes.length = 5 ∧
    (GraphBuilder.filterByDepth nonMonotoneGraph "r" 3).nodes.length = 4 ∧
    (GraphBuilder.filterByDepth nonMonotoneGraph "r" 2).edges.length = 6 ∧
    (GraphBuilder.filterByDepth nonMonotoneGraph "r" 3).edges.length = 5 := by
  refine ⟨by decide, by decide, by decide, by decide⟩

/-! ## C5 -/

/-- C5 (amended): for a relative specifier the resolution is the first
existing candidate of, in order, the resolved path with each extension
`.ts .tsx .js .jsx .java` appended, then the four `/index.*` variants, and
the literal resolved path LAST (the source tries extensions before the bare
path); `none` when no candidate exists.  Non-relative specifiers resolve to
`none` without touching the filesystem. -/
theorem resolveImportPath_spec (fileExists : String → Bool)
    (resolveDir : String → String → String) (sourceFile importSource : String) :
    (strStartsWith importSource "." = false ∧ strStartsWith importSource "/" = false →
      ImportAnalyzer.resolveImportPath fileExists resolveDir sourceFile importSource = none) ∧
    (strStartsWith importSource "." = true ∨ strStartsWith importSource "/" = true →
      ImportAnalyzer.resolveImportPath fileExists resolveDir sourceFile importSource =
        ((importExtensions.map (fun ext => resolveDir sourceFile importSource ++ ext)) ++
          [resolveDir sourceFile importSource]).find? fileExists) := by
  constructor
  · intro h
    simp [ImportAnalyzer.resolveImportPath, h.1, h.2]
  · intro h
    have hcond : (!strStartsWith importSource "." && !strStartsWith importSource "/") = false := by
      rcases h with h | h <;> simp [h]
    rw [ImportAnalyzer.resolveImportPath, if_neg (by simp [hcond])]
    dsimp only
    rw [List.find?_append]
    cases hfind : (importExtensions.map
        (fun ext => resolveDir sourceFile importSource ++ ext)).find? fileExists with
    | some p => rfl
    | none =>
      simp only [List.find?]
      cases hex : fileExists (resolveDir sourceFile importSource) <;> simp [hex]

def feC5 (p : String) : Bool := p == "/a/b" || p == "/a/b.ts"

def rdC5 (_ _ : String) : String := "/a/b"

/-- C5 counterexample: with both the literal path `/a/b` and `/a/b.ts` on
the filesystem, the source returns `/a/b.ts` — the extension candidates are
tried before the literal path, so the claimed candidate order (literal
first) does not match the code. -/
theorem resolveImportPath_counterexample :
    ImportAnalyzer.resolveImportPath feC5 rdC5 "/a/x.ts" "./b" = some "/a/b.ts" ∧
    feC5 "/a/b" = true ∧ ("/a/b.ts" : String) ≠ "/a/b" := by
  refine ⟨by decide, by decide, by decide⟩

/-- Witness for `resolveImportPath_spec`: the relative branch applied to the
concrete filesystem of the counterexample. -/
theorem resolveImportPath_spec_witness :
    ImportAnalyzer.resolveImportPath feC5 rdC5 "/a/x.ts" "./b" =
      ((importExtensions.map (fun ext => rdC5 "/a/x.ts" "./b" ++ ext)) ++
        [rdC5 "/a/x.ts" "./b"]).find? feC5 :=
  (resolveImportPath_spec feC5 rdC5 "/a/x.ts" "./b").2 (Or.inl (by decide))

/-! ## C6 -/

/-- C6: each language parser's `parse` is total — it always returns a
`{ nodes, edges }` record (the embedding's return type; the source wraps the
whole body in `try`/`catch`, so no exception escapes) — and when the parsing
stage inside the `try` block fails, the `catch` branch returns empty node
and edge lists. -/
theorem parsers_error_empty (babelOutcome : Except String (List BDecl))
    (pyScan : Except String (List PythonClass × List PythonFunction))
    (jScan : Except String (List (JavaClass × List JavaMethod) × List JavaInterface))
    (fsPath content : String) (flag : Bool) :
    ((∃ r, ReactParser.parse babelOutcome fsPath content flag = r) ∧
      (∃ r, PythonParser.parse pyScan fsPath content flag = r) ∧
      (∃ r, JavaParser.parse jScan fsPath content flag = r)) ∧
    (∀ err, babelOutcome = .error err →
      ReactParser.parse babelOutcome fsPath content flag = ⟨[], []⟩) ∧
    (∀ err, pyScan = .error err →
      PythonParser.parse pyScan fsPath content flag = ⟨[], []⟩) ∧
    (∀ err, jScan = .error err →
      JavaParser.parse jScan fsPath content flag = ⟨[], []⟩) := by
  refine ⟨⟨⟨_, rfl⟩, ⟨_, rfl⟩, ⟨_, rfl⟩⟩, ?_, ?_, ?_⟩
  · intro err h; rw [h]; rfl
  · intro err h; rw [h]; rfl
  · intro err h; rw [h]; rfl

/-- Witness for `parsers_error_empty`: a concrete parse failure in each
parser yields the empty result. -/
theorem parsers_error_empty_witness :
    ReactParser.parse (.error "boom") "/w/a.tsx" "<<<" false = ⟨[], []⟩ ∧
    PythonParser.parse (.error "boom") "/w/a.py" "<<<" false = ⟨[], []⟩ ∧
    JavaParser.parse (.error "boom") "/w/A.java" "<<<" false = ⟨[], []⟩ :=
  ⟨(parsers_error_empty (.error "boom") (.ok ([], [])) (.ok ([], []))
      "/w/a.tsx" "<<<" false).2.1 "boom" rfl,
   (parsers_error_empty (.error "boom") (.error "boom") (.ok ([], []))
      "/w/a.py" "<<<" false).2.2.1 "boom" rfl,
   (parsers_error_empty (.error "boom") (.error "boom") (.error "boom")
      "/w/A.java" "<<<" false).2.2.2 "boom" rfl⟩

/-! ## C4 -/

/-- C4 (amended): every same-file `contains` edge emitted by the Java and
Python parsers has the containing FILE's absolute path as both its `from`
and `to` fields — not the class and method entity keys; the class/method
pair survives only in the edge label `"<Class> contains <method>"`.  One
such edge is emitted per parsed method. -/
theorem contains_edges_are_file_paths (fsPath : String) (lines : List String)
    (pyClasses : List PythonClass) (jClasses : List (JavaClass × List JavaMethod)) :
    (∀ e ∈ (PythonParser.assembleClasses fsPath lines pyClasses).2,
      e.type = "contains" → e.from_ = fsPath ∧ e.to_ = fsPath) ∧
    (∀ cls ∈ pyClasses, ∀ m ∈ cls.methods,
      PythonParser.containsEdge fsPath cls.name m.name
        ∈ (PythonParser.assembleClasses fsPath lines pyClasses).2) ∧
    (∀ e ∈ (JavaParser.assembleClasses fsPath lines jClasses).2,
      e.type = "contains" → e.from_ = fsPath ∧ e.to_ = fsPath) ∧
    (∀ cm ∈ jClasses, ∀ m ∈ cm.2,
      JavaParser.containsEdge fsPath cm.1.name m.name
        ∈ (JavaParser.assembleClasses fsPath lines jClasses).2) := by
  refine ⟨?_, ?_, ?_, ?_⟩
  · intro e he _
    simp only [PythonParser.assembleClasses, List.mem_flatMap, List.mem_append,
      List.mem_map] at he
    obtain ⟨cls, _, h | h⟩ := he
    · obtain ⟨m, _, rfl⟩ := h
      exact ⟨rfl, rfl⟩
    · obtain ⟨b, _, rfl⟩ := h
      simp_all
  · intro cls hc m hm
    simp only [PythonParser.assembleClasses, List.mem_flatMap]
    exact ⟨cls, hc, by simp [List.mem_append, List.mem_map]; exact Or.inl ⟨m, hm, rfl⟩⟩
  · intro e he _
    simp only [JavaParser.assembleClasses, List.mem_flatMap, List.mem_append,
      List.mem_map] at he
    obtain ⟨cm, _, h⟩ := he
    rcases h with (h | h) | h
    · obtain ⟨m, _, rfl⟩ := h
      exact ⟨rfl, rfl⟩
    · cases hext : cm.1.extendsClass with
      | some ext => rw [hext] at h; simp_all [JavaParser.containsEdge]
      | none => rw [hext] at h; simp at h
    · obtain ⟨i, _, rfl⟩ := h
      simp_all
  · intro cm hc m hm
    simp only [JavaParser.assembleClasses, List.mem_flatMap]
    refine ⟨cm, hc, ?_⟩
    simp [List.mem_append, List.mem_map]
    exact Or.inl ⟨m, hm, rfl⟩

def mSpeak : PythonMethod :=
  { name := "speak", startLine := 1, endLine := 1, indent := 4, decorators := [],
    parameters := [], returnType := "", isAsync := false, isStatic := false,
    isClassMethod := false, isProperty := false }

def clsDog : PythonClass :=
  { name := "Dog", startLine := 0, endLine := 1, indent := 0, decorators := [],
    bases := ["Animal"], methods := [mSpeak] }

def dogContent : String := "class Dog(Animal):\n    def speak(self): pass"

/-- C4 counterexample: parsing a Python file whose class `Dog` contains a
method `speak` emits one `contains` edge, and both its `from` and `to`
fields are the file path `/w/dog.py` — neither field is the class entity key
`/w/dog.py:class:Dog` or the method entity key `/w/dog.py:method:Dog.speak:1`
that the parser assigned to the two nodes. -/
theorem contains_edge_counterexample :
    (PythonParser.parse (.ok ([clsDog], [])) "/w/dog.py" dogContent false).edges.filter
        (fun e => e.type == "contains")
      = [{ from_ := "/w/dog.py", to_ := "/w/dog.py", type := "contains",
           label := some "Dog contains speak" }] ∧
    (PythonParser.parse (.ok ([clsDog], [])) "/w/dog.py" dogContent false).nodes.map (·.id)
      = ["/w/dog.py:class:Dog", "/w/dog.py:method:Dog.speak:1"] ∧
    ("/w/dog.py" : String) ≠ "/w/dog.py:class:Dog" ∧
    ("/w/dog.py" : String) ≠ "/w/dog.py:method:Dog.speak:1" := by
  refine ⟨by decide, by decide, by decide, by decide⟩

/-- Witness for `contains_edges_are_file_paths`: instantiated on the
concrete `Dog`/`speak` class list (and the same data recast as a Java class),
the emitted `contains` edges are in the edge lists and have the file path at
both endpoints. -/
theorem contains_edges_are_file_paths_witness :
    PythonParser.containsEdge "/w/dog.py" "Dog" "speak"
        ∈ (PythonParser.assembleClasses "/w/dog.py" ["class Dog(Animal):"] [clsDog]).2 ∧
    ((PythonParser.containsEdge "/w/dog.py" "Dog" "speak").from_ = "/w/dog.py" ∧
      (PythonParser.containsEdge "/w/dog.py" "Dog" "speak").to_ = "/w/dog.py") :=
  ⟨((contains_edges_are_file_paths "/w/dog.py" ["class Dog(Animal):"] [clsDog] []).2.1
      clsDog (by decide) mSpeak (by decide)),
   ((contains_edges_are_file_paths "/w/dog.py" ["class Dog(Animal):"] [clsDog] []).1
      (PythonParser.containsEdge "/w/dog.py" "Dog" "speak")
      ((contains_edges_are_file_paths "/w/dog.py" ["class Dog(Animal):"] [clsDog] []).2.1
        clsDog (by decide) mSpeak (by decide)) rfl)⟩

/-! ## C9 -/

/-- C9 (amended): a variable bound to an arrow-function or
function-expression value whose body does not return JSX produces NO node at
all — the `VariableDeclarator` visitor has no `else` branch, so such
declarations are silently dropped rather than classified as plain functions;
only a `FunctionDeclaration` with a non-JSX body yields a node of kind
`function`. -/
theorem variable_nonjsx_function_no_node (name : String) (body : FnBody)
    (loc : Option (Nat × Nat)) (params : List ParamPat) (fsPath content : String) :
    ReactParser.isReactComponent body = false →
    (ReactParser.visitNode fsPath content
        (.variableDeclarator name (some (.arrowFunctionExpression body)) loc) = [] ∧
     ReactParser.visitNode fsPath content
        (.variableDeclarator name (some (.functionExpression body)) loc) = [] ∧
     ReactParser.visitNode fsPath content (.functionDeclaration (some name) params body loc)
        = [ReactParser.createFunctionNode name params loc fsPath content] ∧
     (ReactParser.createFunctionNode name params loc fsPath content).type = "function") := by
  intro h
  refine ⟨?_, ?_, ?_, rfl⟩
  · simp [ReactParser.visitNode, h]
  · simp [ReactParser.visitNode, h]
  · simp [ReactParser.visitNode, h]

def addDecl : BDecl :=
  .variableDeclarator "add"
    (some (.arrowFunctionExpression (.blockStatement [.returnStmt (some false)])))
    (some (1, 1))

def addContent : String := "const add = (a, b) => { return a + b; };"

/-- C9 counterexample: a file whose only declaration binds `add` to an arrow
function returning a non-JSX expression parses to an empty node list — no
node of kind `function` is produced for the declaration. -/
theorem variable_nonjsx_function_counterexample :
    (ReactParser.parse (.ok [addDecl]) "/w/util.ts" addContent false).nodes = [] := by
  decide

/-- Witness for `variable_nonjsx_function_no_node` at the concrete `add`
declaration. -/
theorem variable_nonjsx_function_no_node_witness :
    ReactParser.visitNode "/w/util.ts" addContent
      (.variableDeclarator "add"
        (some (.arrowFunctionExpression (.blockStatement [.returnStmt (some false)])))
        (some (1, 1))) = [] :=
  (variable_nonjsx_function_no_node "add" (.blockStatement [.returnStmt (some false)])
    (some (1, 1)) [] "/w/util.ts" addContent (by decide)).1

/-! ## C7 -/

theorem dedupByAux_sublist {α : Type} (key : α → String) :
    ∀ (l : List α) (seen : List String), List.Sublist (dedupByAux key seen l) l := by
  intro l
  induction l with
  | nil => intro seen; simp [dedupByAux]
  | cons x xs ih =>
    intro seen
    rw [dedupByAux]
    split
    · exact (ih seen).cons x
    · exact (ih (key x :: seen)).cons₂ x

/-- The keys of a first-wins dedup pass are distinct and avoid the
already-seen set. -/
theorem dedupByAux_keys_nodup {α : Type} (key : α → String) :
    ∀ (l : List α) (seen : List String),
      ((dedupByAux key seen l).map key).Nodup ∧
        ∀ x ∈ dedupByAux key seen l, key x ∉ seen := by
  intro l
  induction l with
  | nil => intro seen; simp [dedupByAux]
  | cons x xs ih =>
    intro seen
    rw [dedupByAux]
    split
    case isTrue h => exact ih seen
    case isFalse h =>
      have hx : key x ∉ seen := by simpa using h
      have h1 := ih (key x :: seen)
      refine ⟨?_, ?_⟩
      · simp only [List.map_cons, List.nodup_cons]
        refine ⟨?_, h1.1⟩
        intro hmem
        obtain ⟨y, hy, hky⟩ := List.mem_map.mp hmem
        exact (h1.2 y hy) (by simp [hky])
      · intro y hy
        rcases List.mem_cons.mp hy with rfl | hy'
        · exact hx
        · intro hc
          exact (h1.2 y hy') (List.mem_cons_of_mem _ hc)

/-- Membership in a first-wins dedup pass: exactly the elements that are the
first occurrence of their key (relative to the already-seen set). -/
theorem dedupByAux_mem_iff {α : Type} (key : α → String) :
    ∀ (l : List α) (seen : List String) (x : α),
      x ∈ dedupByAux key seen l ↔
        (key x ∉ seen ∧ ∃ l1 l2, l = l1 ++ x :: l2 ∧ ∀ y ∈ l1, key y ≠ key x) := by
  intro l
  induction l with
  | nil =>
    intro seen x
    simp [dedupByAux]
  | cons a as ih =>
    intro seen x
    rw [dedupByAux]
    split
    case isTrue h =>
      have ha : key a ∈ seen := by simpa using h
      rw [ih]
      constructor
      · rintro ⟨hx, l1, l2, rfl, hl1⟩
        refine ⟨hx, a :: l1, l2, rfl, ?_⟩
        intro y hy
        rcases List.mem_cons.mp hy with rfl | hy'
        · intro he
          exact hx (he ▸ ha)
        · exact hl1 y hy'
      · rintro ⟨hx, l1, l2, heq, hl1⟩
        cases l1 with
        | nil =>
          simp only [List.nil_append] at heq
          obtain ⟨rfl, rfl⟩ := List.cons.inj heq
          exact absurd ha hx
        | cons b l1' =>
          simp only [List.cons_append] at heq
          obtain ⟨rfl, heq'⟩ := List.cons.inj heq
          exact ⟨hx, l1', l2, heq', fun y hy => hl1 y (List.mem_cons_of_mem _ hy)⟩
    case isFalse h =>
      have ha : key a ∉ seen := by simpa using h
      constructor
      · intro hmem
        rcases List.mem_cons.mp hmem with rfl | hx'
        · exact ⟨ha, [], as, rfl, by simp⟩
        · obtain ⟨hx, l1, l2, rfl, hl1⟩ := (ih (key a :: seen) x).mp hx'
          have hxs : key x ∉ seen := fun hc => hx (List.mem_cons_of_mem _ hc)
          have hxa : key a ≠ key x := fun he => hx (by simp [he])
          refine ⟨hxs, a :: l1, l2, rfl, ?_⟩
          intro y hy
          rcases List.mem_cons.mp hy with rfl | hy'
          · exact hxa
          · exact hl1 y hy'
      · rintro ⟨hx, l1, l2, heq, hl1⟩
        cases l1 with
        | nil =>
          simp only [List.nil_append] at heq
          obtain ⟨rfl, rfl⟩ := List.cons.inj heq
          exact List.mem_cons_self _ _
        | cons b l1' =>
          simp only [List.cons_append] at heq
          obtain ⟨rfl, heq'⟩ := List.cons.inj heq
          have hba : key a ≠ key x := hl1 a (List.mem_cons_self _ _)
          apply List.mem_cons_of_mem
          apply (ih (key a :: seen) x).mpr
          refine ⟨?_, l1', l2, heq', fun y hy => hl1 y (List.mem_cons_of_mem _ hy)⟩
          intro hc
          rcases List.mem_cons.mp hc with he | hc'
          · exact hba he.symm
          · exact hx hc'

/-- The key set is preserved by a first-wins dedup pass. -/
theorem dedupByAux_keys_mem {α : Type} (key : α → String) :
    ∀ (l : List α) (seen : List String) (k : String),
      k ∈ (dedupByAux key seen l).map key ↔ (k ∉ seen ∧ k ∈ l.map key) := by
  intro l
  induction l with
  | nil => intro seen k; simp [dedupByAux]
  | cons a as ih =>
    intro seen k
    rw [dedupByAux]
    split
    case isTrue h =>
      have ha : key a ∈ seen := by simpa using h
      rw [ih]
      simp only [List.map_cons, List.mem_cons]
      constructor
      · rintro ⟨hk, hmem⟩
        exact ⟨hk, Or.inr hmem⟩
      · rintro ⟨hk, rfl | hmem⟩
        · exact absurd ha hk
        · exact ⟨hk, hmem⟩
    case isFalse h =>
      have ha : key a ∉ seen := by simpa using h
      simp only [List.map_cons, List.mem_cons, ih]
      constructor
      · rintro (rfl | ⟨hk, hmem⟩)
        · exact ⟨ha, Or.inl rfl⟩
        · exact ⟨fun hc => hk (Or.inr hc), Or.inr hmem⟩
      · rintro ⟨hk, rfl | hmem⟩
        · exact Or.inl rfl
        · by_cases hka : k = key a
          · exact Or.inl hka
          · exact Or.inr ⟨by simp [hka, hk], hmem⟩

/-- The `(from, to, kind)` triple of an edge. -/
def CodeEdge.triple (e : CodeEdge) : String × String × String :=
  (e.from_, e.to_, e.type)

/-- The dedup key is a function of the triple. -/
theorem edgeKey_eq_of_triple_eq {e d : CodeEdge} (h : e.triple = d.triple) :
    edgeKey e = edgeKey d := by
  have h1 : e.from_ = d.from_ := congrArg Prod.fst h
  have h2 : e.to_ = d.to_ := congrArg (fun t => t.2.1) h
  have h3 : e.type = d.type := congrArg (fun t => t.2.2) h
  simp [edgeKey, h1, h2, h3]

/-- C7 (amended): in `buildFromEntryPoints` output, nodes are deduplicated
exactly by identity key (distinct ids, first occurrence kept, every input id
represented); edges are deduplicated by the concatenated string key
`from ++ "-" ++ to ++ "-" ++ kind` — first occurrence by KEY kept, every
input KEY represented.  No two output edges share a triple (two edges with
equal triples have equal keys), but a distinct input triple can be lost when
a different triple produces the same key; when the key is injective on the
input's edges (e.g. no ambiguous `-` placement), every input triple is
represented. -/
theorem buildFromEntryPoints_dedup (nodes : List CodeNode) (edges : List CodeEdge)
    (rootPath : String) (entryPointFiles : List String) :
    ((GraphBuilder.buildFromEntryPoints nodes edges rootPath entryPointFiles).nodes.map
        (·.id)).Nodup ∧
    (∀ n, n ∈ (GraphBuilder.buildFromEntryPoints nodes edges rootPath entryPointFiles).nodes ↔
      ∃ l1 l2, nodes = l1 ++ n :: l2 ∧ ∀ m ∈ l1, m.id ≠ n.id) ∧
    (∀ k, k ∈ (GraphBuilder.buildFromEntryPoints nodes edges rootPath
        entryPointFiles).nodes.map (·.id) ↔ k ∈ nodes.map (·.id)) ∧
    ((GraphBuilder.buildFromEntryPoints nodes edges rootPath entryPointFiles).edges.map
        CodeEdge.triple).Nodup ∧
    (∀ e, e ∈ (GraphBuilder.buildFromEntryPoints nodes edges rootPath entryPointFiles).edges ↔
      ∃ l1 l2, edges = l1 ++ e :: l2 ∧ ∀ d ∈ l1, edgeKey d ≠ edgeKey e) ∧
    (∀ k, k ∈ (GraphBuilder.buildFromEntryPoints nodes edges rootPath
        entryPointFiles).edges.map edgeKey ↔ k ∈ edges.map edgeKey) ∧
    ((∀ e ∈ edges, ∀ d ∈ edges, edgeKey e = edgeKey d → e.triple = d.triple) →
      ∀ e ∈ edges, ∃ d ∈ (GraphBuilder.buildFromEntryPoints nodes edges rootPath
        entryPointFiles).edges, d.triple = e.triple) := by
  have hnodes : (GraphBuilder.buildFromEntryPoints nodes edges rootPath entryPointFiles).nodes
      = dedupByAux (·.id) [] nodes := rfl
  have hedges : (GraphBuilder.buildFromEntryPoints nodes edges rootPath entryPointFiles).edges
      = dedupByAux edgeKey [] edges := rfl
  rw [hnodes, hedges]
  refine ⟨(dedupByAux_keys_nodup _ nodes []).1, ?_, ?_, ?_, ?_, ?_, ?_⟩
  · intro n
    rw [dedupByAux_mem_iff]
    simp
  · intro k
    rw [dedupByAux_keys_mem]
    simp
  · -- triples of the kept edges are distinct because the key factors
    -- through the triple
    have hkeys := (dedupByAux_keys_nodup edgeKey edges []).1
    have hfac : (dedupByAux edgeKey [] edges).map edgeKey
        = ((dedupByAux edgeKey [] edges).map CodeEdge.triple).map
            (fun t => t.1 ++ "-" ++ t.2.1 ++ "-" ++ t.2.2) := by
      simp only [List.map_map]
      rfl
    rw [hfac] at hkeys
    exact hkeys.of_map _
  · intro e
    rw [dedupByAux_mem_iff]
    simp
  · intro k
    rw [dedupByAux_keys_mem]
    simp
  · intro hinj e he
    have hk : edgeKey e ∈ (dedupByAux edgeKey [] edges).map edgeKey := by
      rw [dedupByAux_keys_mem]
      exact ⟨by simp, List.mem_map_of_mem _ he⟩
    obtain ⟨d, hd, hkey⟩ := List.mem_map.mp hk
    have hdin : d ∈ edges := (dedupByAux_sublist edgeKey edges []).mem hd
    exact ⟨d, hd, hinj d hdin e he hkey⟩

def e1C7 : CodeEdge := { from_ := "a-b", to_ := "c", type := "imports" }

def e2C7 : CodeEdge := { from_ := "a", to_ := "b-c", type := "imports" }

/-- C7 counterexample: the two distinct triples `("a-b","c",imports)` and
`("a","b-c",imports)` have the same concatenated dedup key
`"a-b-c-imports"`, so the second edge is dropped and its triple is not
represented in the output — the claim's "every distinct input triple is
represented by exactly one output element" fails. -/
theorem buildFromEntryPoints_dedup_counterexample :
    (GraphBuilder.buildFromEntryPoints [] [e1C7, e2C7] "/w" []).edges = [e1C7] ∧
    e1C7.triple ≠ e2C7.triple ∧ edgeKey e1C7 = edgeKey e2C7 := by
  refine ⟨by decide, by decide, by decide⟩

/-- Witness for `buildFromEntryPoints_dedup`: the key-injectivity conjunct
applied to a singleton edge list. -/
theorem buildFromEntryPoints_dedup_witness :
    ∃ d ∈ (GraphBuilder.buildFromEntryPoints [] [e1C7] "/w" []).edges,
      d.triple = e1C7.triple :=
  (buildFromEntryPoints_dedup [] [e1C7] "/w" []).2.2.2.2.2.2
    (by decide) e1C7 (by decide)

/-! ## C10 -/

theorem foldl_pres_mem {α β : Type} (P : α → Prop) (f : α → β → α) :
    ∀ (l : List β) (a : α), (∀ x b, b ∈ l → P x → P (f x b)) → P a → P (l.foldl f a) := by
  intro l
  induction l with
  | nil => intro a _ h; exact h
  | cons b bs ih =>
    intro a hstep h
    rw [List.foldl_cons]
    exact ih (f a b) (fun x c hc hx => hstep x c (List.mem_cons_of_mem _ hc) hx)
      (hstep a b (List.mem_cons_self _ _) h)

/-- Invariance of a state predicate along `traverse`: it is preserved by the
guarded insertion of a fresh node id and by pushing an edge of the graph. -/
theorem traverse_inv (edges : List CodeEdge) (maxDepth : Nat) (P : TravState → Prop)
    (hinsert : ∀ st nodeId, st.visited.contains nodeId = false → P st →
      P { st with visited := st.visited ++ [nodeId]
                  nodesToInclude := st.nodesToInclude ++ [nodeId] })
    (hedge : ∀ st e, e ∈ edges → P st →
      P { st with edgesToInclude := st.edgesToInclude ++ [e] }) :
    ∀ (fuel : Nat) (nodeId : String) (depth : Nat) (st : TravState),
      P st → P (GraphBuilder.traverse edges maxDepth fuel nodeId depth st) := by
  intro fuel
  induction fuel with
  | zero => intro nodeId depth st h; exact h
  | succ fuel ih =>
    intro nodeId depth st h
    rw [GraphBuilder.traverse]
    split
    case isTrue => exact h
    case isFalse hcond =>
      have hc : st.visited.contains nodeId = false := by
        cases hcc : st.visited.contains nodeId
        · rfl
        · exact absurd (by rw [hcc]; simp) hcond
      apply foldl_pres_mem
      · intro x e hmem hx
        exact ih e.to_ (depth + 1) _ (hedge x e (List.mem_of_mem_filter hmem) hx)
      · exact hinsert st nodeId hc h

/-- `nodesToInclude` always mirrors `visited` (both `Set`s receive exactly
the same guarded insertions) and stays duplicate-free. -/
theorem traverse_visited_spec (edges : List CodeEdge) (maxDepth fuel depth : Nat)
    (nodeId : String) :
    (GraphBuilder.traverse edges maxDepth fuel nodeId depth ⟨[], [], []⟩).nodesToInclude
      = (GraphBuilder.traverse edges maxDepth fuel nodeId depth ⟨[], [], []⟩).visited ∧
    (GraphBuilder.traverse edges maxDepth fuel nodeId depth ⟨[], [], []⟩).visited.Nodup := by
  refine traverse_inv edges maxDepth
    (fun st => st.nodesToInclude = st.visited ∧ st.visited.Nodup) ?_ ?_ fuel nodeId depth
    ⟨[], [], []⟩ ⟨rfl, List.nodup_nil⟩
  · intro st nid hc h
    refine ⟨by rw [h.1], ?_⟩
    have hnotmem : nid ∉ st.visited := by
      intro hmem
      simp [hmem] at hc
    simp [List.nodup_append, h.2, hnotmem]
  · intro st e _ h
    exact h

/-- Counting: a duplicate-free list contained in `l2` but missing some
element of `l2` is strictly shorter than `l2`. -/
theorem length_lt_of_nodup_subset_missing (l1 l2 : List String) (h1 : l1.Nodup)
    (hsub : ∀ x ∈ l1, x ∈ l2) (v : String) (hv : v ∈ l2) (hnv : v ∉ l1) :
    l1.length < l2.length := by
  have h1' : l1.toFinset.card = l1.length := List.toFinset_card_of_nodup h1
  have hsub' : l1.toFinset ⊆ l2.toFinset.erase v := by
    intro x hx
    rw [List.mem_toFinset] at hx
    exact Finset.mem_erase.mpr ⟨fun he => hnv (he ▸ hx), List.mem_toFinset.mpr (hsub x hx)⟩
  have hle := Finset.card_le_card hsub'
  rw [Finset.card_erase_of_mem (List.mem_toFinset.mpr hv)] at hle
  have hcard : l2.toFinset.card ≤ l2.length := l2.toFinset_card_le
  have hpos : 0 < l2.toFinset.card := Finset.card_pos.mpr ⟨v, List.mem_toFinset.mpr hv⟩
  omega

/-- C10 (amended): `filterByDepth`'s `metadata.totalNodes` is the number of
distinct ids visited by the traversal (which may differ from the returned
node count); when some VISITED id has no node in `graph.nodes` (and node ids
are unique), `totalNodes` strictly exceeds the returned node count; and a
returned edge whose target id has no node in `graph.nodes` has no node in
the returned node list either.  (A dangling edge target that the depth bound
keeps un-visited does not inflate `totalNodes` — the original claim fails
there.) -/
theorem filterByDepth_totalNodes_spec (graph : CodeGraph) (rootNodeId : String)
    (maxDepth : Nat) :
    ((GraphBuilder.filterByDepth graph rootNodeId maxDepth).metadata.totalNodes
        = (GraphBuilder.traverse graph.edges maxDepth (maxDepth + 1) rootNodeId 0
            ⟨[], [], []⟩).visited.length ∧
      (GraphBuilder.traverse graph.edges maxDepth (maxDepth + 1) rootNodeId 0
          ⟨[], [], []⟩).visited.Nodup) ∧
    ((graph.nodes.map (·.id)).Nodup →
      (∃ v ∈ (GraphBuilder.traverse graph.edges maxDepth (maxDepth + 1) rootNodeId 0
          ⟨[], [], []⟩).visited, ∀ n ∈ graph.nodes, n.id ≠ v) →
      (GraphBuilder.filterByDepth graph rootNodeId maxDepth).nodes.length
        < (GraphBuilder.filterByDepth graph rootNodeId maxDepth).metadata.totalNodes) ∧
    (∀ e ∈ (GraphBuilder.filterByDepth graph rootNodeId maxDepth).edges,
      (∀ n ∈ graph.nodes, n.id ≠ e.to_) →
      ∀ n ∈ (GraphBuilder.filterByDepth graph rootNodeId maxDepth).nodes, n.id ≠ e.to_) := by
  have hspec := traverse_visited_spec graph.edges maxDepth (maxDepth + 1) 0 rootNodeId
  have htot : (GraphBuilder.filterByDepth graph rootNodeId maxDepth).metadata.totalNodes
      = (GraphBuilder.traverse graph.edges maxDepth (maxDepth + 1) rootNodeId 0
          ⟨[], [], []⟩).nodesToInclude.length := rfl
  have hnodes : (GraphBuilder.filterByDepth graph rootNodeId maxDepth).nodes
      = graph.nodes.filter (fun n =>
          (GraphBuilder.traverse graph.edges maxDepth (maxDepth + 1) rootNodeId 0
            ⟨[], [], []⟩).nodesToInclude.contains n.id) := rfl
  refine ⟨⟨by rw [htot, hspec.1], hspec.2⟩, ?_, ?_⟩
  · intro hids ⟨v, hvmem, hvmiss⟩
    rw [htot, hspec.1, hnodes]
    set R := graph.nodes.filter (fun n =>
      (GraphBuilder.traverse graph.edges maxDepth (maxDepth + 1) rootNodeId 0
        ⟨[], [], []⟩).nodesToInclude.contains n.id) with hR
    have hRsub : List.Sublist R graph.nodes := List.filter_sublist _
    have hRids : (R.map (·.id)).Nodup := hids.sublist (hRsub.map _)
    rw [show R.length = (R.map (·.id)).length from (List.length_map _ _).symm]
    apply length_lt_of_nodup_subset_missing _ _ hRids
    · intro k hk
      obtain ⟨n, hn, rfl⟩ := List.mem_map.mp hk
      have := List.of_mem_filter hn
      rw [hspec.1] at this
      simpa using this
    · exact hvmem
    · intro hvin
      obtain ⟨n, hn, hne⟩ := List.mem_map.mp hvin
      exact hvmiss n (hRsub.mem hn) hne
  · intro e _ hmiss n hn
    rw [hnodes] at hn
    exact hmiss n (List.mem_of_mem_filter hn)

/-- A graph with an edge whose target id has no node. -/
def danglingGraph : CodeGraph :=
  { nodes := [exNode "r"], edges := [exEdge "r" "x"], metadata := exMeta }

/-- C10 counterexample: with `maxDepth = 0`, the dangling edge `r → x` is
returned (pushed before the depth check) but `x` is never visited, so
`totalNodes = 1` equals the returned node count instead of strictly
exceeding it — the claim's implication fails even though a returned edge's
target has no node anywhere in the graph. -/
theorem totalNodes_dangling_counterexample :
    (GraphBuilder.filterByDepth danglingGraph "r" 0).edges = [exEdge "r" "x"] ∧
    (∀ n ∈ danglingGraph.nodes, n.id ≠ "x") ∧
    (GraphBuilder.filterByDepth danglingGraph "r" 0).metadata.totalNodes = 1 ∧
    (GraphBuilder.filterByDepth danglingGraph "r" 0).nodes.length = 1 ∧
    ¬((GraphBuilder.filterByDepth danglingGraph "r" 0).metadata.totalNodes
        > (GraphBuilder.filterByDepth danglingGraph "r" 0).nodes.length) := by
  refine ⟨by decide, by decide, by decide, by decide, by decide⟩

/-- Witness for `filterByDepth_totalNodes_spec`: with `maxDepth = 1` the
dangling target `x` IS visited, and `totalNodes = 2` strictly exceeds the
single returned node. -/
theorem filterByDepth_totalNodes_spec_witness :
    (GraphBuilder.filterByDepth danglingGraph "r" 1).nodes.length
      < (GraphBuilder.filterByDepth danglingGraph "r" 1).metadata.totalNodes :=
  (filterByDepth_totalNodes_spec danglingGraph "r" 1).2.1 (by decide) (by decide)

/-! ## C1 -/

theorem markAt_eq (b : Bool) :
    ∀ (l : List EntryPoint) (i : Nat) (x : EntryPoint), l.get? i = some x →
      markAt b l i = l.take i ++
        ({ x with isPrimaryEntry := true
                  score := if b then x.score + 100 else x.score } :: l.drop (i + 1)) := by
  intro l
  induction l with
  | nil => intro i x h; simp at h
  | cons a as ih =>
    intro i x h
    cases i with
    | zero =>
      rw [List.get?_cons_zero] at h
      injection h with h
      subst h
      rfl
    | succ i =>
      rw [List.get?_cons_succ] at h
      simp only [markAt, List.take_succ_cons, List.drop_succ_cons, List.cons_append]
      rw [ih i x h]

theorem findWithIdx_some {α : Type} (p : α → Bool) :
    ∀ (l : List α) (i : Nat) (x : α), findWithIdx p l = some (i, x) →
      l.get? i = some x ∧ p x = true ∧
        ∀ j < i, ∀ y, l.get? j = some y → p y = false := by
  intro l
  induction l with
  | nil => intro i x h; simp [findWithIdx] at h
  | cons a as ih =>
    intro i x h
    rw [findWithIdx] at h
    by_cases hp : p a
    · rw [if_pos hp] at h
      injection h with h
      obtain ⟨rfl, rfl⟩ := Prod.mk.inj h.symm
      exact ⟨rfl, hp, by omega⟩
    · rw [if_neg hp] at h
      cases hfind : findWithIdx p as with
      | none => rw [hfind] at h; simp at h
      | some r =>
        rw [hfind] at h
        injection h with h
        obtain ⟨hi, hx⟩ := Prod.mk.inj h
        obtain ⟨spec1, spec2, spec3⟩ := ih r.1 r.2 (by rw [hfind])
        subst hi hx
        refine ⟨spec1, spec2, ?_⟩
        intro j hj y hy
        cases j with
        | zero =>
          rw [List.get?_cons_zero] at hy
          injection hy with hy
          subst hy
          exact Bool.eq_false_iff.mpr hp
        | succ j =>
          rw [List.get?_cons_succ] at hy
          exact spec3 j (by omega) y hy

theorem findWithIdx_none {α : Type} (p : α → Bool) :
    ∀ (l : List α), findWithIdx p l = none → ∀ x ∈ l, p x = false := by
  intro l
  induction l with
  | nil => intro _ x hx; cases hx
  | cons a as ih =>
    intro h x hx
    rw [findWithIdx] at h
    by_cases hp : p a
    · rw [if_pos hp] at h; cases h
    · rw [if_neg hp] at h
      rcases List.mem_cons.mp hx with rfl | hx'
      · exact Bool.eq_false_iff.mpr hp
      · cases hfind : findWithIdx p as with
        | none => exact ih hfind x hx'
        | some r => rw [hfind] at h; cases h

theorem findWithIdx_exists {α : Type} (p : α → Bool) :
    ∀ (l : List α) (x : α), x ∈ l → p x = true → ∃ r, findWithIdx p l = some r := by
  intro l
  induction l with
  | nil => intro x hx; cases hx
  | cons a as ih =>
    intro x hx hp
    by_cases hpa : p a
    · exact ⟨(0, a), by rw [findWithIdx, if_pos hpa]⟩
    · rcases List.mem_cons.mp hx with rfl | hx'
      · exact absurd hp (by simp [hpa])
      · obtain ⟨r, hr⟩ := ih x hx' hp
        exact ⟨(r.1 + 1, r.2), by rw [findWithIdx, if_neg hpa, hr]; rfl⟩

/-- The first candidate matching the first pattern (in pattern-priority
order, then candidate order) that has any match: pattern `k` matches `ep` at
position `i`, no earlier candidate matches pattern `k`, and no
higher-priority pattern matches any candidate. -/
def PatternFirst (ps : List (String → Bool)) (eps : List EntryPoint) (i : Nat)
    (ep : EntryPoint) : Prop :=
  ∃ k p, ps.get? k = some p ∧ p ep.filePath = true ∧ eps.get? i = some ep ∧
    (∀ j < i, ∀ ep', eps.get? j = some ep' → p ep'.filePath = false) ∧
    (∀ k' < k, ∀ p', ps.get? k' = some p' → ∀ ep' ∈ eps, p' ep'.filePath = false)

theorem findPatternMatch_some :
    ∀ (ps : List (String → Bool)) (eps : List EntryPoint) (i : Nat) (ep : EntryPoint),
      findPatternMatch ps eps = some (i, ep) → PatternFirst ps eps i ep := by
  intro ps
  induction ps with
  | nil => intro eps i ep h; simp [findPatternMatch] at h
  | cons p ps' ih =>
    intro eps i ep h
    rw [findPatternMatch] at h
    cases hf : findWithIdx (fun e => p e.filePath) eps with
    | some r =>
      rw [hf] at h
      injection h with h
      obtain ⟨hi, hx⟩ := Prod.mk.inj h
      subst hi hx
      obtain ⟨spec1, spec2, spec3⟩ := findWithIdx_some _ eps r.1 r.2 (by rw [hf])
      exact ⟨0, p, rfl, spec2, spec1, spec3, by omega⟩
    | none =>
      rw [hf] at h
      have hnone := findWithIdx_none (fun e => p e.filePath) eps hf
      obtain ⟨k, q, hq, hqep, hepi, hfirst, hmin⟩ := ih eps i ep h
      refine ⟨k + 1, q, by simpa using hq, hqep, hepi, hfirst, ?_⟩
      intro k' hk' p' hp' ep' hep'
      cases k' with
      | zero =>
        rw [List.get?_cons_zero] at hp'
        injection hp' with hp'
        subst hp'
        exact hnone ep' hep'
      | succ k'' =>
        rw [List.get?_cons_succ] at hp'
        exact hmin k'' (by omega) p' hp' ep' hep'

theorem findPatternMatch_none :
    ∀ (ps : List (String → Bool)) (eps : List EntryPoint),
      findPatternMatch ps eps = none → ∀ p ∈ ps, ∀ ep ∈ eps, p ep.filePath = false := by
  intro ps
  induction ps with
  | nil => intro eps _ p hp; cases hp
  | cons q ps' ih =>
    intro eps h p hp ep hep
    rw [findPatternMatch] at h
    cases hf : findWithIdx (fun e => q e.filePath) eps with
    | some r => rw [hf] at h; cases h
    | none =>
      rw [hf] at h
      rcases List.mem_cons.mp hp with rfl | hp'
      · exact findWithIdx_none _ eps hf ep hep
      · exact ih eps h p hp' ep hep

theorem findPatternMatch_exists :
    ∀ (ps : List (String → Bool)) (eps : List EntryPoint),
      (∃ p ∈ ps, ∃ ep ∈ eps, p ep.filePath = true) →
      ∃ r, findPatternMatch ps eps = some r := by
  intro ps
  induction ps with
  | nil => rintro eps ⟨p, hp, _⟩; cases hp
  | cons q ps' ih =>
    rintro eps ⟨p, hp, ep, hep, hpep⟩
    cases hf : findWithIdx (fun e => q e.filePath) eps with
    | some r => exact ⟨r, by rw [findPatternMatch, hf]⟩
    | none =>
      rcases List.mem_cons.mp hp with rfl | hp'
      · exact absurd hpep (by simp [findWithIdx_none _ eps hf ep hep])
      · obtain ⟨r, hr⟩ := ih eps ⟨p, hp', ep, hep, hpep⟩
        exact ⟨r, by rw [findPatternMatch, hf, hr]⟩

def epSrcIndex : EntryPoint :=
  { filePath := "/w/src/index.tsx", type := "index", score := 17 }

def epJavaMain : EntryPoint :=
  { filePath := "/w/src/Main.java", type := "main", score := 10 }

/-- C1: `markPrimaryEntryPoint` is a strict ordered fallback chain.  (1) If
any candidate matches a React primary pattern (`src/index.*`, `src/main.*`,
`index.*`, `main.*` after a path separator — the source comments call the
latter two "root level" — with a TS/JS extension, checked in that priority
order), the first such match becomes primary with a +100 score boost;
(2) else the first Java candidate of type `main` with a `.java` path becomes
primary (+100); (3) else the first candidate matching the Python entry
patterns (`__main__.py`, `/main.py`, `/app.py`, `/manage.py`, `/run.py`,
`/wsgi.py`, `/asgi.py`, in priority order) becomes primary (+100); (4) else
the head candidate — the highest-scoring one when the list is sorted by
descending score, as it is at the call site — becomes primary with NO boost.
In particular a list containing both `src/index.tsx` and a Java `main`
candidate marks `src/index.tsx` primary (+100) and leaves the Java candidate
unchanged. -/
theorem markPrimaryEntryPoint_chain (eps : List EntryPoint) :
    ((∃ ep ∈ eps, ∃ p ∈ reactPrimaryPatterns, p ep.filePath = true) →
      ∃ i ep, PatternFirst reactPrimaryPatterns eps i ep ∧
        EntryPointDetector.markPrimaryEntryPoint eps =
          eps.take i ++ ({ ep with isPrimaryEntry := true, score := ep.score + 100 }
            :: eps.drop (i + 1))) ∧
    ((∀ ep ∈ eps, ∀ p ∈ reactPrimaryPatterns, p ep.filePath = false) →
     (∃ ep ∈ eps, isJavaMainCandidate ep = true) →
      ∃ i ep, eps.get? i = some ep ∧ isJavaMainCandidate ep = true ∧
        (∀ j < i, ∀ ep', eps.get? j = some ep' → isJavaMainCandidate ep' = false) ∧
        EntryPointDetector.markPrimaryEntryPoint eps =
          eps.take i ++ ({ ep with isPrimaryEntry := true, score := ep.score + 100 }
            :: eps.drop (i + 1))) ∧
    ((∀ ep ∈ eps, ∀ p ∈ reactPrimaryPatterns, p ep.filePath = false) →
     (∀ ep ∈ eps, isJavaMainCandidate ep = false) →
     (∃ ep ∈ eps, ∃ p ∈ pythonPrimaryPatterns, p ep.filePath = true) →
      ∃ i ep, PatternFirst pythonPrimaryPatterns eps i ep ∧
        EntryPointDetector.markPrimaryEntryPoint eps =
          eps.take i ++ ({ ep with isPrimaryEntry := true, score := ep.score + 100 }
            :: eps.drop (i + 1))) ∧
    ((∀ ep ∈ eps, ∀ p ∈ reactPrimaryPatterns, p ep.filePath = false) →
     (∀ ep ∈ eps, isJavaMainCandidate ep = false) →
     (∀ ep ∈ eps, ∀ p ∈ pythonPrimaryPatterns, p ep.filePath = false) →
      ∀ ep0 rest, eps = ep0 :: rest →
        EntryPointDetector.markPrimaryEntryPoint eps =
          { ep0 with isPrimaryEntry := true } :: rest ∧
        (eps.Sorted (fun a b => b.score ≤ a.score) →
          ∀ ep ∈ eps, ep.score ≤ ep0.score)) ∧
    (EntryPointDetector.markPrimaryEntryPoint [epJavaMain, epSrcIndex] =
      [epJavaMain, { epSrcIndex with isPrimaryEntry := true
                                     score := epSrcIndex.score + 100 }] ∧
      epJavaMain.isPrimaryEntry = false ∧ isJavaMainCandidate epJavaMain = true) := by
  have reactNone : (∀ ep ∈ eps, ∀ p ∈ reactPrimaryPatterns, p ep.filePath = false) →
      findPatternMatch reactPrimaryPatterns eps = none := by
    intro hnone
    cases hf : findPatternMatch reactPrimaryPatterns eps with
    | none => rfl
    | some r =>
      obtain ⟨k, q, hq, hqep, hgi, _, _⟩ :=
        findPatternMatch_some reactPrimaryPatterns eps r.1 r.2 (by rw [hf])
      exact absurd hqep
        (by rw [hnone r.2 (List.get?_mem hgi) q (List.get?_mem hq)]; simp)
  have javaNone : (∀ ep ∈ eps, isJavaMainCandidate ep = false) →
      findWithIdx isJavaMainCandidate eps = none := by
    intro hnone
    cases hf : findWithIdx isJavaMainCandidate eps with
    | none => rfl
    | some r =>
      obtain ⟨hgi, hpr, _⟩ := findWithIdx_some isJavaMainCandidate eps r.1 r.2 (by rw [hf])
      exact absurd hpr (by rw [hnone r.2 (List.get?_mem hgi)]; simp)
  refine ⟨?_, ?_, ?_, ?_, by decide, by decide, by decide⟩
  · rintro ⟨ep, hep, p, hp, hpep⟩
    obtain ⟨⟨i, ep'⟩, hfind⟩ :=
      findPatternMatch_exists reactPrimaryPatterns eps ⟨p, hp, ep, hep, hpep⟩
    have hspec := findPatternMatch_some reactPrimaryPatterns eps i ep' hfind
    obtain ⟨k, q, hq, hqep, hgi, h4, h5⟩ := hspec
    refine ⟨i, ep', ⟨k, q, hq, hqep, hgi, h4, h5⟩, ?_⟩
    simp only [EntryPointDetector.markPrimaryEntryPoint, hfind]
    exact markAt_eq true eps i ep' hgi
  · intro hnone hex
    have hrn := reactNone hnone
    obtain ⟨ep, hep, hjava⟩ := hex
    obtain ⟨⟨i, ep'⟩, hf⟩ := findWithIdx_exists isJavaMainCandidate eps ep hep hjava
    obtain ⟨hgi, hpr, hfirst⟩ := findWithIdx_some isJavaMainCandidate eps i ep' hf
    refine ⟨i, ep', hgi, hpr, hfirst, ?_⟩
    simp only [EntryPointDetector.markPrimaryEntryPoint, hrn, hf]
    exact markAt_eq true eps i ep' hgi
  · intro hnone hjnone hex
    have hrn := reactNone hnone
    have hjn := javaNone hjnone
    obtain ⟨ep, hep, p, hp, hpep⟩ := hex
    obtain ⟨⟨i, ep'⟩, hfind⟩ :=
      findPatternMatch_exists pythonPrimaryPatterns eps ⟨p, hp, ep, hep, hpep⟩
    have hspec := findPatternMatch_some pythonPrimaryPatterns eps i ep' hfind
    obtain ⟨k, q, hq, hqep, hgi, h4, h5⟩ := hspec
    refine ⟨i, ep', ⟨k, q, hq, hqep, hgi, h4, h5⟩, ?_⟩
    simp only [EntryPointDetector.markPrimaryEntryPoint, hrn, hjn, hfind]
    exact markAt_eq true eps i ep' hgi
  · intro hnone hjnone hpnone ep0 rest heps
    have hrn := reactNone hnone
    have hjn := javaNone hjnone
    have hpn : findPatternMatch pythonPrimaryPatterns eps = none := by
      cases hf : findPatternMatch pythonPrimaryPatterns eps with
      | none => rfl
      | some r =>
        obtain ⟨k, q, hq, hqep, hgi, _, _⟩ :=
          findPatternMatch_some pythonPrimaryPatterns eps r.1 r.2 (by rw [hf])
        exact absurd hqep
          (by rw [hpnone r.2 (List.get?_mem hgi) q (List.get?_mem hq)]; simp)
    subst heps
    constructor
    · simp only [EntryPointDetector.markPrimaryEntryPoint, hrn, hjn, hpn]
      rfl
    · intro hsorted ep hep
      rcases List.mem_cons.mp hep with rfl | hep'
      · exact Nat.le_refl _
      · exact List.rel_of_sorted_cons hsorted ep hep'

/-- Witness for `markPrimaryEntryPoint_chain`: the React branch applied to
the concrete `[Java main, src/index.tsx]` candidate list. -/
theorem markPrimaryEntryPoint_chain_witness :
    ∃ i ep, PatternFirst reactPrimaryPatterns [epJavaMain, epSrcIndex] i ep ∧
      EntryPointDetector.markPrimaryEntryPoint [epJavaMain, epSrcIndex] =
        [epJavaMain, epSrcIndex].take i ++
          ({ ep with isPrimaryEntry := true, score := ep.score + 100 }
            :: [epJavaMain, epSrcIndex].drop (i + 1)) :=
  (markPrimaryEntryPoint_chain [epJavaMain, epSrcIndex]).1
    ⟨epSrcIndex, by decide, matchSepDirFile "src" "index",
      List.mem_cons_self _ _, by decide⟩
